import Mathlib

/-!
Verification of the diet-analysis query engine
(`DietProcessorFunction/azure_diet_processor.py` and the HTTP dispatcher
`DietProcessorFunction/__init__.py`).

The engine is shallowly embedded: a pandas `DataFrame` with the declared
schema (`Recipe_name`, `Diet_type`, `Cuisine_type`, `Protein(g)`, `Carbs(g)`,
`Fat(g)`) becomes a `Table`: a list of `Row`s plus one presence flag per
declared column (absent columns are modelled by the flag being `false`; the
per-row cells of an absent column are never read by any embedded operation).
A cell is `Option String` / `Option ℚ`, `none` standing for a pandas
missing value (`NaN`).  Python floats are modelled as exact rationals.
Fallible operations (ones whose Python counterpart can raise) return
`Option`.
-/

namespace DietProc

/-! # Definitions -/

/-! ### Character/string ordering

pandas compares Python strings by code point, lexicographically.  We model
that order directly on `List Char` so that it is kernel-computable.
`Series.mode()` returns the tied most-frequent values sorted ascending in
this order, so `mode()[0]` is the least tied value. -/

def charLtB (a b : Char) : Bool := Nat.blt a.toNat b.toNat

def strLtB : List Char → List Char → Bool
  | [], [] => false
  | [], _ :: _ => true
  | _ :: _, [] => false
  | a :: as, b :: bs => charLtB a b || (a == b && strLtB as bs)

/-- Code-point order on strings. -/
def strLtS (a b : String) : Bool := strLtB a.toList b.toList

def strLeB (a b : String) : Bool := !(strLtS b a)

/-- `min` of two strings in code-point order. -/
def strMin (a b : String) : String := if strLtS a b then a else b

/-! ### Generic list helpers -/

/-- The non-missing values of a column, in order (pandas `dropna`). -/
def nonNull {α : Type} : List (Option α) → List α
  | [] => []
  | none :: vs => nonNull vs
  | some x :: vs => x :: nonNull vs

/-- Distinct values in first-seen order, skipping values already seen. -/
def uniqueAux {α : Type} [DecidableEq α] : List α → List α → List α
  | [], _ => []
  | x :: xs, seen =>
    if x ∈ seen then uniqueAux xs seen
    else x :: uniqueAux xs (x :: seen)

/-- Distinct values in first-seen order (pandas `Series.unique`). -/
def uniqueList {α : Type} [DecidableEq α] (l : List α) : List α :=
  uniqueAux l []

/-- Largest element of a list of naturals, `0` for the empty list. -/
def listMax (l : List Nat) : Nat := l.foldr max 0

/-! ### Column statistics -/

/-- The tied most-frequent values of a column (pandas `Series.mode()`,
as a set; pandas returns them sorted ascending in code-point order). -/
def modeCandidates (xs : List String) : List String :=
  (uniqueList xs).filter fun a =>
    xs.count a == listMax (xs.map fun b => xs.count b)

/-- First element of pandas `Series.mode()`: since pandas sorts the tied
maximizers ascending, this is their least element in code-point order. -/
def leastOf (l : List String) : Option String :=
  match l with
  | [] => none
  | x :: rest => some (rest.foldl strMin x)

/-- `mode_value[0] if len(mode_value) > 0 else "Unknown"`. -/
def modeFill (vs : List (Option String)) : String :=
  (leastOf (modeCandidates (nonNull vs))).getD "Unknown"

/-- `Series.mean()` over the non-missing values; `NaN` (here `none`) when
there are none. -/
def meanOpt (vs : List (Option ℚ)) : Option ℚ :=
  match nonNull vs with
  | [] => none
  | x :: xs => some ((x :: xs).sum / (((x :: xs).length : ℕ) : ℚ))

/-- `Series.min()` (skips missing values; `NaN` for an empty column). -/
def minOpt (vs : List (Option ℚ)) : Option ℚ :=
  match nonNull vs with
  | [] => none
  | x :: xs => some (xs.foldl min x)

/-- `Series.max()` (skips missing values; `NaN` for an empty column). -/
def maxOpt (vs : List (Option ℚ)) : Option ℚ :=
  match nonNull vs with
  | [] => none
  | x :: xs => some (xs.foldl max x)

/-- The non-missing values of a column, sorted ascending. -/
def sortedVals (vs : List (Option ℚ)) : List ℚ :=
  (nonNull vs).insertionSort (· ≤ ·)

/-- `Series.median()`: middle of the sorted non-missing values, the mean of
the two middles for an even count, `NaN` for an empty column. -/
def medianOpt (vs : List (Option ℚ)) : Option ℚ :=
  if (sortedVals vs).length = 0 then none
  else if (sortedVals vs).length % 2 = 1 then
    (sortedVals vs)[(sortedVals vs).length / 2]?
  else
    match (sortedVals vs)[(sortedVals vs).length / 2 - 1]?,
        (sortedVals vs)[(sortedVals vs).length / 2]? with
    | some a, some b => some ((a + b) / 2)
    | _, _ => none

/-- Python `round` to an integer: round-half-to-even. -/
def rhe (q : ℚ) : ℤ :=
  if q - ⌊q⌋ < 1/2 then ⌊q⌋
  else if q - ⌊q⌋ > 1/2 then ⌊q⌋ + 1
  else if ⌊q⌋ % 2 = 0 then ⌊q⌋ else ⌊q⌋ + 1

/-- Python `round(x, 2)`: the spec fixes round-half-to-even at 2 decimal
places throughout. -/
def round2 (q : ℚ) : ℚ := (rhe (q * 100) : ℚ) / 100

/-! ### Data model -/

/-- One recipe row; `none` is a missing cell (pandas `NaN`). -/
structure Row where
  recipeName : Option String
  dietType : Option String
  cuisineType : Option String
  protein : Option ℚ
  carbs : Option ℚ
  fat : Option ℚ
deriving DecidableEq

/-- The in-memory dataset: one presence flag per declared schema column
(`col in self.data.columns`) plus the rows. -/
structure Table where
  hasRecipeName : Bool
  hasDietType : Bool
  hasCuisineType : Bool
  hasProtein : Bool
  hasCarbs : Bool
  hasFat : Bool
  rows : List Row
deriving DecidableEq

/-! ### Cleaning (`_clean_data`) -/

/-- One numeric cell of `self.data[col].fillna(mean_val)` where
`mean_val = self.data[col].mean()` — filling with `NaN` is a no-op;
a column absent from the schema is skipped. -/
def fillNum (present : Bool) (m : Option ℚ) (v : Option ℚ) : Option ℚ :=
  if present then
    match m with
    | none => v
    | some mv => some (v.getD mv)
  else v

/-- One categorical cell of `self.data[col].fillna(fill_value)`;
a column absent from the schema is skipped. -/
def fillCat (present : Bool) (f : String) (v : Option String) :
    Option String :=
  if present then some (v.getD f) else v

/-- The effect of `_clean_data` on one row.  The fill values (column mean,
column mode) are computed from the table as loaded, before any filling. -/
def cleanRow (t : Table) (r : Row) : Row :=
  { recipeName := r.recipeName
    dietType :=
      fillCat t.hasDietType
        (modeFill (t.rows.map fun s => s.dietType)) r.dietType
    cuisineType :=
      fillCat t.hasCuisineType
        (modeFill (t.rows.map fun s => s.cuisineType)) r.cuisineType
    protein :=
      fillNum t.hasProtein
        (meanOpt (t.rows.map fun s => s.protein)) r.protein
    carbs :=
      fillNum t.hasCarbs
        (meanOpt (t.rows.map fun s => s.carbs)) r.carbs
    fat :=
      fillNum t.hasFat
        (meanOpt (t.rows.map fun s => s.fat)) r.fat }

/-- `_clean_data`: fill missing numeric cells with the column mean
(computed before any filling) and missing categorical cells with
`mode()[0]` (or `"Unknown"` for a column with no values). -/
def cleanData (t : Table) : Table :=
  { t with rows := t.rows.map (cleanRow t) }

/-- Specification of `mode()[0] or "Unknown"` read off the claim: the
least (code-point order) among the most frequent non-missing values,
`"Unknown"` when the column has no non-missing value. -/
def IsLeastMode (vs : List (Option String)) (s : String) : Prop :=
  (nonNull vs = [] ∧ s = "Unknown") ∨
  (s ∈ nonNull vs ∧
    (∀ a ∈ nonNull vs, (nonNull vs).count a ≤ (nonNull vs).count s) ∧
    (∀ a ∈ nonNull vs, (nonNull vs).count a = (nonNull vs).count s →
      strLeB s a = true))

/-- Modelled from the claim wording (not the code): the most frequent
non-missing value with ties broken by the first-encountered value,
`"Unknown"` when the column has no non-missing value.  Used only to
exhibit where the code disagrees with this reading. -/
def firstEncounteredMode (vs : List (Option String)) : String :=
  match (uniqueList (nonNull vs)).filter (fun a =>
      (nonNull vs).count a ==
        listMax ((nonNull vs).map fun b => (nonNull vs).count b)) with
  | [] => "Unknown"
  | x :: _ => x

/-! ### Regular expressions

`search_recipes` calls `Series.str.contains(search_term, case=False,
na=False)`, which interprets `search_term` as a regular expression with
`re.IGNORECASE` and tests `re.search` (match anywhere).  We embed the
fragment of Python regex syntax exercised by the claims: literal
characters, `.` (any character) and `|` (alternation).  Terms containing
other metacharacters are outside the modelled fragment (`parseRE` returns
`none`; for a pattern such as a lone `(`, `*` or `[`, Python itself raises
`re.error`).  Case-insensitivity is modelled by lowercasing both the
pattern and the data. -/

inductive RE where
  | emp : RE
  | eps : RE
  | chr : Char → RE
  | dot : RE
  | alt : RE → RE → RE
  | seq : RE → RE → RE
deriving DecidableEq

/-- All ways to split a word in two. -/
def splitsOf (s : List Char) : List (List Char × List Char) :=
  (List.range (s.length + 1)).map fun i => (s.take i, s.drop i)

/-- Full-match semantics of the regex fragment. -/
def accepts : RE → List Char → Bool
  | .emp, _ => false
  | .eps, s => s.isEmpty
  | .chr c, s => s == [c]
  | .dot, s => s.length == 1
  | .alt a b, s => accepts a s || accepts b s
  | .seq a b, s => (splitsOf s).any fun p => accepts a p.1 && accepts b p.2

/-- `re.search`: the regex matches some contiguous substring. -/
def searchB (r : RE) (s : List Char) : Bool :=
  s.tails.any fun t => t.inits.any fun u => accepts r u

/-- Characters Python regex treats literally. -/
def isOrdinary (c : Char) : Bool :=
  !(['.', '^', '$', '*', '+', '?', '(', ')', '[', ']', '{', '}', '|',
    '\\'].contains c)

def atomRE (c : Char) : Option RE :=
  if c == '.' then some RE.dot
  else if isOrdinary c then some (RE.chr c)
  else none

def seqREOfChars : List Char → Option RE
  | [] => some RE.eps
  | c :: cs =>
    match atomRE c, seqREOfChars cs with
    | some a, some r => some (RE.seq a r)
    | _, _ => none

def splitOnBar : List Char → List (List Char)
  | [] => [[]]
  | c :: cs =>
    if c == '|' then [] :: splitOnBar cs
    else
      match splitOnBar cs with
      | [] => [[c]]
      | h :: tl => (c :: h) :: tl

/-- Compile each `|`-separated segment, failing if any fails. -/
def parseSegs : List (List Char) → Option (List RE)
  | [] => some []
  | s :: rest =>
    match seqREOfChars s, parseSegs rest with
    | some r, some rs => some (r :: rs)
    | _, _ => none

/-- Compile a pattern of the fragment (`|`-separated concatenations of
literal characters and `.`). -/
def parseRE (cs : List Char) : Option RE :=
  match parseSegs (splitOnBar cs) with
  | some [] => none
  | some (r :: rs) => some (rs.foldl RE.alt r)
  | none => none

def lowerL (cs : List Char) : List Char := cs.map Char.toLower

/-- The regex denoting one literal word. -/
def litRE : List Char → RE
  | [] => RE.eps
  | c :: cs => RE.seq (RE.chr c) (litRE cs)

/-- Literal containment check: `p` occurs as a contiguous substring. -/
def infixB (p s : List Char) : Bool := s.tails.any fun t => p.isPrefixOf t

/-- Modelled from the claim wording: literal case-insensitive substring
containment of the term in a cell, missing cells never matching. -/
def optContainsCI (term : String) (v : Option String) : Bool :=
  match v with
  | none => false
  | some s => infixB (lowerL term.toList) (lowerL s.toList)

/-- The match test `str.contains(term, case=False, na=False)` applies to
one cell: missing cells never match (`na=False`). -/
def optSearch (re : RE) (v : Option String) : Bool :=
  match v with
  | none => false
  | some s => searchB re (lowerL s.toList)

/-! ### Query operations

Each operation takes the processor state `self.data : Option Table`
(`none` = no dataset loaded).  Operations that can raise return `Option`;
the others are total. -/

/-- `self.data["Diet_type"] == key` on one cell: pandas `NaN` compares
unequal to everything, including another `NaN`. -/
def matchesKey (k : Option String) (cell : Option String) : Bool :=
  match k, cell with
  | some a, some b => a == b
  | _, _ => false

/-- `self.data[self.data["Diet_type"] == diet_type]`. -/
def groupRows (t : Table) (k : Option String) : List Row :=
  t.rows.filter fun r => matchesKey k r.dietType

/-- `self.data["Diet_type"].unique()`. -/
def dietKeys (t : Table) : List (Option String) :=
  uniqueList (t.rows.map fun r => r.dietType)

/-- One group entry of `get_macronutrient_averages`.  The outer `Option`
on each field is dictionary-key presence (column in schema), the inner
`Option ℚ` is the rounded group mean (`none` = `NaN`). -/
structure MacroAvgs where
  protein : Option (Option ℚ)
  carbs : Option (Option ℚ)
  fat : Option (Option ℚ)
deriving DecidableEq

def get_macronutrient_averages (st : Option Table) :
    List (Option String × MacroAvgs) :=
  match st with
  | none => []
  | some t =>
    if !t.hasDietType || (!t.hasProtein && !t.hasCarbs && !t.hasFat) then []
    else
      (dietKeys t).map fun k =>
        (k,
          { protein :=
              if t.hasProtein then
                some ((meanOpt ((groupRows t k).map fun r => r.protein)).map
                  round2)
              else none
            carbs :=
              if t.hasCarbs then
                some ((meanOpt ((groupRows t k).map fun r => r.carbs)).map
                  round2)
              else none
            fat :=
              if t.hasFat then
                some ((meanOpt ((groupRows t k).map fun r => r.fat)).map
                  round2)
              else none })

structure DietComparisonEntry where
  diet_type : Option String
  protein : Option ℚ
  carbs : Option ℚ
  fat : Option ℚ
  total_recipes : Nat
deriving DecidableEq

/-- `get_diet_comparison_data`: built from the averages; `macros.get(key, 0)`
defaults to `0` exactly when the dictionary key is absent. -/
def get_diet_comparison_data (st : Option Table) : List DietComparisonEntry :=
  match st with
  | none => []
  | some t =>
    (get_macronutrient_averages (some t)).map fun p =>
      { diet_type := p.1
        protein := match p.2.protein with | none => some 0 | some v => v
        carbs := match p.2.carbs with | none => some 0 | some v => v
        fat := match p.2.fat with | none => some 0 | some v => v
        total_recipes := (groupRows t p.1).length }

/-! #### Top-N by nutrient

`DataFrame.nlargest(n, col)` drops the rows whose value in `col` is
missing, then returns the first `n` rows in decreasing order of the value,
ties kept in original row order (`keep="first"` over a stable mergesort).
We model it by stably ordering the index-paired rows by
value-descending / index-ascending. -/

def keyD (key : Row → Option ℚ) (r : Row) : ℚ := (key r).getD 0

def topRel (key : Row → Option ℚ) (a b : Nat × Row) : Prop :=
  keyD key b.2 < keyD key a.2 ∨ (keyD key a.2 = keyD key b.2 ∧ a.1 ≤ b.1)

instance instDecTopRel (key : Row → Option ℚ) : DecidableRel (topRel key) :=
  fun a b => by unfold topRel; infer_instance

instance instTopRelTotal (key : Row → Option ℚ) :
    IsTotal (Nat × Row) (topRel key) := by
  constructor
  intro a b
  unfold topRel
  rcases lt_trichotomy (keyD key a.2) (keyD key b.2) with h | h | h
  · exact Or.inr (Or.inl h)
  · rcases Nat.le_total a.1 b.1 with hn | hn
    · exact Or.inl (Or.inr ⟨h, hn⟩)
    · exact Or.inr (Or.inr ⟨h.symm, hn⟩)
  · exact Or.inl (Or.inl h)

instance instTopRelTrans (key : Row → Option ℚ) :
    IsTrans (Nat × Row) (topRel key) := by
  constructor
  intro a b c hab hbc
  unfold topRel at *
  rcases hab with h1 | ⟨h1, h1n⟩
  · rcases hbc with h2 | ⟨h2, h2n⟩
    · exact Or.inl (lt_trans h2 h1)
    · exact Or.inl (h2 ▸ h1)
  · rcases hbc with h2 | ⟨h2, h2n⟩
    · exact Or.inl (h1 ▸ h2)
    · exact Or.inr ⟨h1.trans h2, Nat.le_trans h1n h2n⟩

/-- `self.data.nlargest(n, nutrient_col)`, rows paired with their original
positions. -/
def nlargestIdx (n : Nat) (key : Row → Option ℚ) (rows : List Row) :
    List (Nat × Row) :=
  ((rows.enum.filter fun p => (key p.2).isSome).insertionSort
    (topRel key)).take n

/-- `nutrient_col = f"{nutrient}(g)"; nutrient_col in self.data.columns`:
resolve the nutrient name to the column accessor when present. -/
def nutrientKey (t : Table) (nutrient : String) :
    Option (Row → Option ℚ) :=
  if nutrient == "Protein" && t.hasProtein then some fun r => r.protein
  else if nutrient == "Carbs" && t.hasCarbs then some fun r => r.carbs
  else if nutrient == "Fat" && t.hasFat then some fun r => r.fat
  else none

structure TopRecipe where
  recipe_name : Option String
  diet_type : Option String
  cuisine_type : Option String
  nutrient_value : ℚ
  nutrient_type : String
deriving DecidableEq

/-- One output dictionary of `get_top_recipes_by_nutrient`
(`recipe.get(col, "Unknown")` defaults only when the column is absent). -/
def mkTopRecipe (t : Table) (nutrient : String) (key : Row → Option ℚ)
    (r : Row) : TopRecipe :=
  { recipe_name := if t.hasRecipeName then r.recipeName else some "Unknown"
    diet_type := if t.hasDietType then r.dietType else some "Unknown"
    cuisine_type :=
      if t.hasCuisineType then r.cuisineType else some "Unknown"
    nutrient_value := round2 (keyD key r)
    nutrient_type := nutrient }

def get_top_recipes_by_nutrient (st : Option Table) (nutrient : String)
    (n : Nat) : List TopRecipe :=
  match st with
  | none => []
  | some t =>
    match nutrientKey t nutrient with
    | none => []
    | some key =>
      (nlargestIdx n key t.rows).map fun p => mkTopRecipe t nutrient key p.2

/-- The dispatcher clamp `n = max(1, min(n, 100))`. -/
def clampN (n : Nat) : Nat := max 1 (min n 100)

/-! #### Cuisine distribution -/

def vcRel (a b : Nat × (String × Nat)) : Prop :=
  b.2.2 < a.2.2 ∨ (a.2.2 = b.2.2 ∧ a.1 ≤ b.1)

instance instDecVcRel : DecidableRel vcRel :=
  fun a b => by unfold vcRel; infer_instance

/-- `Series.value_counts().to_dict()`: counts of the non-missing values,
largest first (ties in first-seen order). -/
def valueCounts (vs : List (Option String)) : List (String × Nat) :=
  ((((uniqueList (nonNull vs)).map fun v =>
      (v, (nonNull vs).count v)).enum).insertionSort vcRel).map fun p => p.2

def get_cuisine_distribution (st : Option Table) :
    List (Option String × List (String × Nat)) :=
  match st with
  | none => []
  | some t =>
    if !t.hasDietType || !t.hasCuisineType then []
    else
      (dietKeys t).map fun k =>
        (k, valueCounts ((groupRows t k).map fun r => r.cuisineType))

/-! #### Nutrient ranges -/

structure NutrientRange where
  min : Option ℚ
  max : Option ℚ
  average : Option ℚ
  median : Option ℚ
deriving DecidableEq

/-- The four statistics reported for one nutrient column, each rounded to
2 decimals (`round` of `NaN` is `NaN`, i.e. `none`). -/
def mkRange (col : List (Option ℚ)) : NutrientRange :=
  { min := (minOpt col).map round2
    max := (maxOpt col).map round2
    average := (meanOpt col).map round2
    median := (medianOpt col).map round2 }

def get_nutrient_ranges (st : Option Table) :
    List (String × NutrientRange) :=
  match st with
  | none => []
  | some t =>
    (if t.hasProtein then
      [("Protein", mkRange (t.rows.map fun r => r.protein))] else []) ++
    (if t.hasCarbs then
      [("Carbs", mkRange (t.rows.map fun r => r.carbs))] else []) ++
    (if t.hasFat then
      [("Fat", mkRange (t.rows.map fun r => r.fat))] else [])

/-! #### Summary -/

structure DietSummary where
  total_recipes : Nat
  total_diet_types : Nat
  total_cuisine_types : Nat
  diet_types : List (Option String)
  most_common_diet : String
  most_common_cuisine : String
deriving DecidableEq

/-- `get_diet_summary`; the `Option` result is dictionary emptiness:
`none` models the `{}` returned when no dataset is loaded. -/
def get_diet_summary (st : Option Table) : Option DietSummary :=
  match st with
  | none => none
  | some t =>
    some
      { total_recipes := t.rows.length
        total_diet_types :=
          if t.hasDietType then
            (uniqueList (nonNull (t.rows.map fun r => r.dietType))).length
          else 0
        total_cuisine_types :=
          if t.hasCuisineType then
            (uniqueList (nonNull (t.rows.map fun r => r.cuisineType))).length
          else 0
        diet_types := if t.hasDietType then dietKeys t else []
        most_common_diet :=
          if t.hasDietType then
            modeFill (t.rows.map fun r => r.dietType)
          else "Unknown"
        most_common_cuisine :=
          if t.hasCuisineType then
            modeFill (t.rows.map fun r => r.cuisineType)
          else "Unknown" }

/-! #### Recipes by diet type -/

structure DietRecipe where
  recipe_name : Option String
  cuisine_type : Option String
  protein : Option ℚ
  carbs : Option ℚ
  fat : Option ℚ
deriving DecidableEq

/-- One output dictionary of `get_recipes_by_diet_type`:
`round(recipe.get(col, 0), 2)` rounds the cell (or the default `0` when
the column is absent); `round` of a missing cell stays missing. -/
def mkDietRecipe (t : Table) (r : Row) : DietRecipe :=
  { recipe_name := if t.hasRecipeName then r.recipeName else some "Unknown"
    cuisine_type :=
      if t.hasCuisineType then r.cuisineType else some "Unknown"
    protein :=
      if t.hasProtein then r.protein.map round2 else some (round2 0)
    carbs := if t.hasCarbs then r.carbs.map round2 else some (round2 0)
    fat := if t.hasFat then r.fat.map round2 else some (round2 0) }

def get_recipes_by_diet_type (st : Option Table) (diet : String) :
    List DietRecipe :=
  match st with
  | none => []
  | some t =>
    if !t.hasDietType then []
    else
      (t.rows.filter fun r => matchesKey (some diet) r.dietType).map fun r =>
        mkDietRecipe t r

/-! #### Search -/

/-- Resolve a search field to a string column accessor, when the field is
one of the three string columns present in the schema. -/
def stringColOf (t : Table) (field : String) :
    Option (Row → Option String) :=
  if field == "Recipe_name" && t.hasRecipeName then some fun r => r.recipeName
  else if field == "Diet_type" && t.hasDietType then some fun r => r.dietType
  else if field == "Cuisine_type" && t.hasCuisineType then
    some fun r => r.cuisineType
  else none

def numericColPresent (t : Table) (field : String) : Bool :=
  (field == "Protein(g)" && t.hasProtein) ||
    (field == "Carbs(g)" && t.hasCarbs) || (field == "Fat(g)" && t.hasFat)

/-- `search_field in self.data.columns`. -/
def columnPresent (t : Table) (field : String) : Bool :=
  (stringColOf t field).isSome || numericColPresent t field

structure SearchRecipe where
  recipe_name : Option String
  diet_type : Option String
  cuisine_type : Option String
  protein : Option ℚ
  carbs : Option ℚ
  fat : Option ℚ
deriving DecidableEq

def mkSearchRecipe (t : Table) (r : Row) : SearchRecipe :=
  { recipe_name := if t.hasRecipeName then r.recipeName else some "Unknown"
    diet_type := if t.hasDietType then r.dietType else some "Unknown"
    cuisine_type :=
      if t.hasCuisineType then r.cuisineType else some "Unknown"
    protein :=
      if t.hasProtein then r.protein.map round2 else some (round2 0)
    carbs := if t.hasCarbs then r.carbs.map round2 else some (round2 0)
    fat := if t.hasFat then r.fat.map round2 else some (round2 0) }

/-- `search_recipes`.  Result `none` models an exception: `.str` on a
numeric column raises `AttributeError`, and a term outside the modelled
regex fragment is not interpreted (a lone metacharacter such as `(` makes
Python raise `re.error`).  `some []` is the documented empty result. -/
def search_recipes (st : Option Table) (term field : String) :
    Option (List SearchRecipe) :=
  match st with
  | none => some []
  | some t =>
    if !(columnPresent t field) then some []
    else
      match stringColOf t field with
      | none => none
      | some col =>
        match parseRE (lowerL term.toList) with
        | none => none
        | some re =>
          some ((t.rows.filter fun r => optSearch re (col r)).map fun r =>
            mkSearchRecipe t r)

/-! ### Loading -/

/-- `self.data = None` in `__init__`. -/
def initData : Option Table := none

/-- `load_data_from_content` (and the tail of `load_data_from_blob`):
`parsed` is the outcome of the external fetch + `pd.read_csv` (`none` =
the fetch failed, the blob was missing, or parsing raised).  On failure
the exception is caught, `False` is returned and `self.data` is not
assigned; on success the parsed table is installed and cleaned and `True`
is returned. -/
def load_data_from_content (st : Option Table) (parsed : Option Table) :
    Option Table × Bool :=
  match parsed with
  | none => (st, false)
  | some d => (some (cleanData d), true)

/-! ### State-passing wrappers

Each query method reads `self.data` and never assigns to it; the wrappers
make the resulting state explicit so that the frame property is statable. -/

def run_summary (st : Option Table) : Option Table × Option DietSummary :=
  (st, get_diet_summary st)

def run_macronutrient_averages (st : Option Table) :
    Option Table × List (Option String × MacroAvgs) :=
  (st, get_macronutrient_averages st)

def run_diet_comparison (st : Option Table) :
    Option Table × List DietComparisonEntry :=
  (st, get_diet_comparison_data st)

def run_top_recipes (st : Option Table) (nutrient : String) (n : Nat) :
    Option Table × List TopRecipe :=
  (st, get_top_recipes_by_nutrient st nutrient n)

def run_cuisine_distribution (st : Option Table) :
    Option Table × List (Option String × List (String × Nat)) :=
  (st, get_cuisine_distribution st)

def run_nutrient_ranges (st : Option Table) :
    Option Table × List (String × NutrientRange) :=
  (st, get_nutrient_ranges st)

def run_recipes_by_diet_type (st : Option Table) (diet : String) :
    Option Table × List DietRecipe :=
  (st, get_recipes_by_diet_type st diet)

def run_search (st : Option Table) (term field : String) :
    Option Table × Option (List SearchRecipe) :=
  (st, search_recipes st term field)

/-! ### Concrete example tables -/

def blankRow : Row :=
  { recipeName := none, dietType := none, cuisineType := none,
    protein := none, carbs := none, fat := none }

/-- Diet_type column `["b", "a", NaN]` (a mode tie) and an entirely
missing Protein column. -/
def exC1 : Table :=
  { hasRecipeName := false, hasDietType := true, hasCuisineType := false,
    hasProtein := true, hasCarbs := false, hasFat := false,
    rows :=
      [{ blankRow with dietType := some "b" },
       { blankRow with dietType := some "a" },
       blankRow] }

def exC1wRow0 : Row := { blankRow with protein := some 2 }

def exC1wRow1 : Row :=
  { blankRow with dietType := some "x", protein := some 4 }

/-- Witness table for the amended cleaning claim. -/
def exC1w : Table :=
  { hasRecipeName := false, hasDietType := true, hasCuisineType := false,
    hasProtein := true, hasCarbs := false, hasFat := false,
    rows := [exC1wRow0, exC1wRow1] }

/-- Row 0 of `exC1w` after cleaning: the missing diet type is filled with
the column mode `"x"`; the present protein value is untouched. -/
def exC1wRow0c : Row :=
  { blankRow with dietType := some "x", protein := some 2 }

/-- A cleaned table (a fixed point of `cleanData`) whose present Protein
column is entirely missing. -/
def exC2 : Table :=
  { hasRecipeName := false, hasDietType := false, hasCuisineType := false,
    hasProtein := true, hasCarbs := false, hasFat := false,
    rows := [blankRow] }

/-- Witness table for C5: fully populated, hence already clean. -/
def exC5 : Table :=
  { hasRecipeName := true, hasDietType := true, hasCuisineType := true,
    hasProtein := true, hasCarbs := true, hasFat := true,
    rows :=
      [{ recipeName := some "r", dietType := some "a",
         cuisineType := some "c", protein := some 1, carbs := some 2,
         fat := some 3 }] }

/-- Cleaned table with a diet-type column but no macronutrient columns. -/
def exC6 : Table :=
  { hasRecipeName := false, hasDietType := true, hasCuisineType := false,
    hasProtein := false, hasCarbs := false, hasFat := false,
    rows := [{ blankRow with dietType := some "a" }] }

/-- Witness table for C6. -/
def exC6w : Table :=
  { hasRecipeName := false, hasDietType := true, hasCuisineType := false,
    hasProtein := true, hasCarbs := false, hasFat := false,
    rows :=
      [{ blankRow with dietType := some "a", protein := some 1 },
       { blankRow with dietType := some "b", protein := some 3 },
       { blankRow with dietType := some "a", protein := some 5 }] }

/-- Cleaned empty table whose Protein column is present: every reported
statistic of the column is `NaN`. -/
def exC8 : Table :=
  { hasRecipeName := false, hasDietType := false, hasCuisineType := false,
    hasProtein := true, hasCarbs := false, hasFat := false, rows := [] }

/-- Witness table for C8. -/
def exC8w : Table :=
  { hasRecipeName := false, hasDietType := false, hasCuisineType := false,
    hasProtein := true, hasCarbs := false, hasFat := false,
    rows := [{ blankRow with protein := some 1 },
             { blankRow with protein := some 2 }] }

def exC3Row : Row := { blankRow with recipeName := some "abc" }

/-- One recipe named `"abc"`: the term `"."`, read as a regex, matches it
although `"."` is not a literal substring of `"abc"`. -/
def exC3 : Table :=
  { hasRecipeName := true, hasDietType := true, hasCuisineType := true,
    hasProtein := true, hasCarbs := true, hasFat := true,
    rows := [exC3Row] }

def exC10Row : Row := { blankRow with recipeName := some "Abcd" }

/-- One recipe named `"Abcd"`: the term `"b.d"`, read as a regex, matches
it although `"b.d"` is not a literal substring. -/
def exC10 : Table :=
  { hasRecipeName := true, hasDietType := true, hasCuisineType := true,
    hasProtein := true, hasCarbs := true, hasFat := true,
    rows := [exC10Row] }

/-- Witness table for search/regex claims. -/
def exC3w : Table :=
  { hasRecipeName := true, hasDietType := false, hasCuisineType := false,
    hasProtein := false, hasCarbs := false, hasFat := false,
    rows := [{ blankRow with recipeName := some "Pasta" },
             { blankRow with recipeName := some "Soup" },
             blankRow] }

/-! # Theorems -/

/-! ### The string order -/

theorem charLtB_iff (a b : Char) : charLtB a b = true ↔ a.toNat < b.toNat := by
  simp [charLtB, Nat.blt_eq]

theorem charLtB_false_iff (a b : Char) :
    charLtB a b = false ↔ b.toNat ≤ a.toNat := by
  rw [Bool.eq_false_iff]
  simp [charLtB_iff, Nat.not_lt]

theorem char_toNat_inj {a b : Char} (h : a.toNat = b.toNat) : a = b :=
  Char.eq_of_val_eq (by apply UInt32.ext; simpa [Char.toNat] using h)

theorem charLtB_self (a : Char) : charLtB a a = false := by
  rw [charLtB_false_iff]

theorem strLtB_irrefl (a : List Char) : strLtB a a = false := by
  induction a with
  | nil => rfl
  | cons x xs ih => simp [strLtB, ih, charLtB_self]

theorem strLtB_trans {a b c : List Char} (hab : strLtB a b = true)
    (hbc : strLtB b c = true) : strLtB a c = true := by
  induction a generalizing b c with
  | nil =>
    cases b with
    | nil => simp [strLtB] at hab
    | cons y ys => cases c with
      | nil => simp [strLtB] at hbc
      | cons z zs => simp [strLtB]
  | cons x xs ih =>
    cases b with
    | nil => simp [strLtB] at hab
    | cons y ys =>
      cases c with
      | nil => simp [strLtB] at hbc
      | cons z zs =>
        simp only [strLtB, Bool.or_eq_true, Bool.and_eq_true, beq_iff_eq,
          charLtB_iff] at hab hbc ⊢
        rcases hab with h1 | ⟨rfl, h1⟩
        · rcases hbc with h2 | ⟨rfl, h2⟩
          · exact Or.inl (Nat.lt_trans h1 h2)
          · exact Or.inl h1
        · rcases hbc with h2 | ⟨rfl, h2⟩
          · exact Or.inl h2
          · exact Or.inr ⟨rfl, ih h1 h2⟩

theorem strLtB_false_trans {a b c : List Char} (hab : strLtB a b = false)
    (hbc : strLtB b c = false) : strLtB a c = false := by
  induction a generalizing b c with
  | nil =>
    cases b with
    | nil =>
      cases c with
      | nil => rfl
      | cons z zs => simp [strLtB] at hbc
    | cons y ys => simp [strLtB] at hab
  | cons x xs ih =>
    cases b with
    | nil =>
      cases c with
      | nil => rfl
      | cons z zs => simp [strLtB] at hbc
    | cons y ys =>
      cases c with
      | nil => rfl
      | cons z zs =>
        simp only [strLtB, Bool.or_eq_false_iff, Bool.and_eq_false_iff,
          charLtB_false_iff, beq_eq_false_iff_ne, ne_eq] at hab hbc ⊢
        obtain ⟨hab1, hab2⟩ := hab
        obtain ⟨hbc1, hbc2⟩ := hbc
        refine ⟨Nat.le_trans hbc1 hab1, ?_⟩
        by_cases hxz : x = z
        · subst hxz
          have hxy : y = x := char_toNat_inj (by omega)
          subst hxy
          rcases hab2 with h | h
          · exact absurd rfl h
          · rcases hbc2 with h2 | h2
            · exact absurd rfl h2
            · exact Or.inr (ih h h2)
        · exact Or.inl hxz

theorem strLtS_irrefl (a : String) : strLtS a a = false := strLtB_irrefl _

theorem strMin_eq_or (a b : String) : strMin a b = a ∨ strMin a b = b := by
  unfold strMin
  by_cases h : strLtS a b = true
  · simp [h]
  · simp [h]

theorem strLeB_strMin_left (a b : String) : strLeB (strMin a b) a = true := by
  unfold strLeB strMin
  cases h : strLtS a b with
  | true => simp [h, strLtS_irrefl]
  | false => simp [h]

theorem strLeB_strMin_right (a b : String) : strLeB (strMin a b) b = true := by
  unfold strLeB strMin
  cases h : strLtS a b with
  | false => simp [h, strLtS_irrefl]
  | true =>
    simp only [h, if_true, Bool.not_eq_true']
    cases hba : strLtS b a with
    | false => rfl
    | true =>
      have hcon : strLtB b.toList b.toList = true := strLtB_trans hba h
      rw [strLtB_irrefl] at hcon
      exact absurd hcon (by simp)

theorem strLeB_trans {a b c : String} (hab : strLeB a b = true)
    (hbc : strLeB b c = true) : strLeB a c = true := by
  unfold strLeB strLtS at hab hbc ⊢
  simp only [Bool.not_eq_true'] at hab hbc ⊢
  exact strLtB_false_trans hbc hab

theorem strLeB_refl (a : String) : strLeB a a = true := by
  simp [strLeB, strLtS_irrefl]

/-- The fold computing `strMin` over a list lands in the list. -/
theorem foldl_strMin_mem (x : String) (l : List String) :
    l.foldl strMin x ∈ x :: l := by
  induction l generalizing x with
  | nil => simp
  | cons b bs ih =>
    simp only [List.foldl_cons]
    have h := ih (strMin x b)
    rcases List.mem_cons.1 h with he | hmem
    · rcases strMin_eq_or x b with hmin | hmin
      · rw [he, hmin]; simp
      · rw [he, hmin]; simp
    · simp [List.mem_cons.2 (Or.inr hmem), List.mem_cons]

/-- The fold computing `strMin` is below every candidate. -/
theorem foldl_strMin_le (x : String) (l : List String) :
    ∀ y ∈ x :: l, strLeB (l.foldl strMin x) y = true := by
  induction l generalizing x with
  | nil =>
    intro y hy
    simp at hy
    simp [hy, strLeB_refl]
  | cons b bs ih =>
    intro y hy
    simp only [List.foldl_cons]
    have hacc : strLeB (bs.foldl strMin (strMin x b)) (strMin x b) = true :=
      ih (strMin x b) (strMin x b) (by simp)
    rcases List.mem_cons.1 hy with rfl | hy2
    · exact strLeB_trans hacc (strLeB_strMin_left _ _)
    rcases List.mem_cons.1 hy2 with rfl | hy3
    · exact strLeB_trans hacc (strLeB_strMin_right _ _)
    · exact ih (strMin x b) y (by simp [hy3])

/-! ### List helpers -/

theorem mem_uniqueAux {α : Type} [DecidableEq α] (l seen : List α) (a : α) :
    a ∈ uniqueAux l seen ↔ a ∈ l ∧ a ∉ seen := by
  induction l generalizing seen with
  | nil => simp [uniqueAux]
  | cons x xs ih =>
    by_cases hx : x ∈ seen
    · rw [uniqueAux, if_pos hx, ih]
      constructor
      · rintro ⟨h1, h2⟩
        exact ⟨List.mem_cons_of_mem _ h1, h2⟩
      · rintro ⟨h1, h2⟩
        rcases List.mem_cons.1 h1 with rfl | h1
        · exact absurd hx h2
        · exact ⟨h1, h2⟩
    · rw [uniqueAux, if_neg hx]
      constructor
      · intro hmem
        rcases List.mem_cons.1 hmem with rfl | hmem2
        · exact ⟨List.mem_cons_self _ _, hx⟩
        · obtain ⟨h1, h2⟩ := (ih (x :: seen)).1 hmem2
          exact ⟨List.mem_cons_of_mem _ h1,
            fun hc => h2 (List.mem_cons_of_mem _ hc)⟩
      · rintro ⟨h1, h2⟩
        by_cases hax : a = x
        · subst hax
          exact List.mem_cons_self _ _
        · rcases List.mem_cons.1 h1 with rfl | h1
          · exact absurd rfl hax
          · refine List.mem_cons_of_mem _ ((ih (x :: seen)).2 ⟨h1, ?_⟩)
            intro hc
            rcases List.mem_cons.1 hc with rfl | hc2
            · exact hax rfl
            · exact h2 hc2

theorem mem_uniqueList {α : Type} [DecidableEq α] (l : List α) (a : α) :
    a ∈ uniqueList l ↔ a ∈ l := by
  unfold uniqueList
  rw [mem_uniqueAux]
  simp

theorem nodup_uniqueAux {α : Type} [DecidableEq α] (l seen : List α) :
    (uniqueAux l seen).Nodup := by
  induction l generalizing seen with
  | nil => simp [uniqueAux]
  | cons x xs ih =>
    by_cases hx : x ∈ seen
    · rw [uniqueAux, if_pos hx]
      exact ih seen
    · rw [uniqueAux, if_neg hx]
      refine List.nodup_cons.2 ⟨?_, ih _⟩
      rw [mem_uniqueAux]
      rintro ⟨-, h2⟩
      exact h2 (List.mem_cons_self _ _)

theorem nodup_uniqueList {α : Type} [DecidableEq α] (l : List α) :
    (uniqueList l).Nodup := nodup_uniqueAux l []

theorem sum_count_uniqueAux {α : Type} [DecidableEq α] (l : List α) :
    ∀ seen : List α,
      ((uniqueAux l seen).map fun u => l.count u).sum =
        l.countP fun y => !(decide (y ∈ seen)) := by
  induction l with
  | nil => intro seen; simp [uniqueAux]
  | cons x xs ih =>
    intro seen
    by_cases hx : x ∈ seen
    · rw [uniqueAux, if_pos hx]
      have hmap : (uniqueAux xs seen).map (fun u => (x :: xs).count u) =
          (uniqueAux xs seen).map (fun u => xs.count u) := by
        refine List.map_congr_left fun u hu => ?_
        have h2 := (mem_uniqueAux xs seen u).1 hu
        exact List.count_cons_of_ne
          (fun hux => h2.2 (by rw [hux]; exact hx)) _
      rw [hmap, ih seen, List.countP_cons]
      simp [hx]
    · rw [uniqueAux, if_neg hx, List.map_cons, List.sum_cons]
      have hmap : (uniqueAux xs (x :: seen)).map
          (fun u => (x :: xs).count u) =
          (uniqueAux xs (x :: seen)).map (fun u => xs.count u) := by
        refine List.map_congr_left fun u hu => ?_
        have h2 := (mem_uniqueAux xs (x :: seen) u).1 hu
        exact List.count_cons_of_ne
          (fun hux => h2.2 (by rw [hux]; exact List.mem_cons_self x seen)) _
      rw [hmap, ih (x :: seen), List.count_cons_self, List.countP_cons]
      have hsplitcount : (xs.countP fun y => !(decide (y ∈ seen))) =
          xs.count x + xs.countP fun y => !(decide (y ∈ x :: seen)) := by
        have h1 : (xs.countP fun y => !(decide (y ∈ seen))) =
            (xs.filter fun y => !(decide (y ∈ seen))).length :=
          List.countP_eq_length_filter _ _
        have h2 : (xs.filter fun y => !(decide (y ∈ seen))).length =
            ((xs.filter fun y => !(decide (y ∈ seen))).countP
              fun y => y == x) +
            ((xs.filter fun y => !(decide (y ∈ seen))).countP
              fun a => decide ¬((a == x) = true)) :=
          List.length_eq_countP_add_countP _ _
        have h3 : ((xs.filter fun y => !(decide (y ∈ seen))).countP
            fun y => y == x) = xs.count x := by
          show (xs.filter fun y => !(decide (y ∈ seen))).count x = _
          rw [List.count_filter (by simp [hx])]
        have h4 : ((xs.filter fun y => !(decide (y ∈ seen))).countP
            fun a => decide ¬((a == x) = true)) =
            xs.countP fun y => !(decide (y ∈ x :: seen)) := by
          rw [List.countP_filter]
          refine List.countP_congr fun a _ => ?_
          by_cases hax : a = x
          · simp [hax]
          · simp [hax, List.mem_cons]
        omega
      simp only [decide_eq_false hx, Bool.not_false, if_true]
      omega

/-- The counts of the distinct values of a list sum to its length. -/
theorem sum_count_uniqueList {α : Type} [DecidableEq α] (l : List α) :
    ((uniqueList l).map fun u => l.count u).sum = l.length := by
  unfold uniqueList
  rw [sum_count_uniqueAux l []]
  have : (l.countP fun y => !(decide (y ∈ ([] : List α)))) =
      l.countP fun _ => true := by
    refine List.countP_congr fun a _ => ?_
    simp
  rw [this, List.countP_true]

theorem le_listMax (l : List Nat) : ∀ x ∈ l, x ≤ listMax l := by
  induction l with
  | nil => simp
  | cons a as ih =>
    intro x hx
    rcases List.mem_cons.1 hx with rfl | hx2
    · exact le_max_left _ _
    · exact le_trans (ih x hx2) (le_max_right _ _)

theorem listMax_mem (l : List Nat) (h : l ≠ []) : listMax l ∈ l := by
  induction l with
  | nil => simp at h
  | cons a as ih =>
    by_cases has : as = []
    · subst has
      show max a 0 ∈ [a]
      simp
    · have hmem := ih has
      show max a (listMax as) ∈ a :: as
      rcases Nat.le_total a (listMax as) with hle | hle
      · rw [max_eq_right hle]
        exact List.mem_cons_of_mem _ hmem
      · rw [max_eq_left hle]
        simp

/-! ### Fill helpers and the mode -/

theorem fillNum_none (p : Bool) (v : Option ℚ) : fillNum p none v = v := by
  cases p <;> simp [fillNum]

theorem fillNum_false (m : Option ℚ) (v : Option ℚ) :
    fillNum false m v = v := rfl

theorem fillCat_false (f : String) (v : Option String) :
    fillCat false f v = v := rfl

theorem fillNum_absorb (m2 : Option ℚ) (mv : ℚ) (v : Option ℚ) :
    fillNum true m2 (fillNum true (some mv) v) = fillNum true (some mv) v := by
  cases m2 <;> cases v <;> simp [fillNum]

theorem fillCat_absorb (p : Bool) (f2 f : String) (v : Option String) :
    fillCat p f2 (fillCat p f v) = fillCat p f v := by
  cases p <;> cases v <;> simp [fillCat]

theorem leastOf_spec (l : List String) (c : String) (h : leastOf l = some c) :
    c ∈ l ∧ ∀ a ∈ l, strLeB c a = true := by
  cases l with
  | nil => simp [leastOf] at h
  | cons x rest =>
    simp only [leastOf, Option.some.injEq] at h
    subst h
    exact ⟨foldl_strMin_mem x rest, foldl_strMin_le x rest⟩

theorem modeCandidates_ne_nil (xs : List String) (hne : xs ≠ []) :
    modeCandidates xs ≠ [] := by
  have hmapne : (xs.map fun b => xs.count b) ≠ [] := by
    simpa using hne
  have hmem := listMax_mem _ hmapne
  rcases List.mem_map.1 hmem with ⟨u, hu, hcu⟩
  have hucand : u ∈ modeCandidates xs := by
    unfold modeCandidates
    refine List.mem_filter.2 ⟨(mem_uniqueList _ _).2 hu, ?_⟩
    simp [hcu]
  intro hcon
  rw [hcon] at hucand
  simp at hucand

theorem modeFill_isLeastMode (vs : List (Option String)) :
    IsLeastMode vs (modeFill vs) := by
  unfold IsLeastMode
  by_cases hxs : nonNull vs = []
  · left
    refine ⟨hxs, ?_⟩
    unfold modeFill modeCandidates
    rw [hxs]
    rfl
  · right
    have hcandne := modeCandidates_ne_nil (nonNull vs) hxs
    rcases hcand : modeCandidates (nonNull vs) with - | ⟨c, cs⟩
    · exact absurd hcand hcandne
    have hfill : modeFill vs = cs.foldl strMin c := by
      unfold modeFill
      rw [hcand]
      rfl
    have hspec := leastOf_spec (c :: cs) (cs.foldl strMin c) rfl
    rw [← hcand, ← hfill] at hspec
    obtain ⟨hmemc, hlec⟩ := hspec
    have hresmax : (nonNull vs).count (modeFill vs) =
        listMax ((nonNull vs).map fun b => (nonNull vs).count b) := by
      have := List.of_mem_filter (p := fun a =>
        (nonNull vs).count a == listMax ((nonNull vs).map fun b =>
          (nonNull vs).count b)) hmemc
      simpa using this
    have hresmem : modeFill vs ∈ nonNull vs := by
      have := List.mem_of_mem_filter hmemc
      exact (mem_uniqueList _ _).1 this
    refine ⟨hresmem, ?_, ?_⟩
    · intro a ha
      rw [hresmax]
      exact le_listMax _ _ (List.mem_map.2 ⟨a, ha, rfl⟩)
    · intro a ha hacount
      refine hlec a ?_
      unfold modeCandidates
      refine List.mem_filter.2 ⟨(mem_uniqueList _ _).2 ha, ?_⟩
      rw [hacount, hresmax]
      simp

/-! ### Cleaning -/

theorem meanOpt_eq_none (vs : List (Option ℚ)) (h : nonNull vs = []) :
    meanOpt vs = none := by
  unfold meanOpt
  rw [h]

theorem meanOpt_eq_some (vs : List (Option ℚ)) (h : nonNull vs ≠ []) :
    meanOpt vs =
      some ((nonNull vs).sum / (((nonNull vs).length : ℕ) : ℚ)) := by
  unfold meanOpt
  rcases hc : nonNull vs with - | ⟨x, xs⟩
  · exact absurd hc h
  · rfl

theorem fillNum_true_none (m : Option ℚ) : fillNum true m none = m := by
  cases m <;> simp [fillNum]

theorem fillNum_some_arg (m : Option ℚ) (x : ℚ) :
    fillNum true m (some x) = some x := by
  cases m <;> simp [fillNum]

theorem fillCat_true_none (f : String) : fillCat true f none = some f := by
  simp [fillCat]

theorem fillCat_some_arg (f : String) (x : String) :
    fillCat true f (some x) = some x := by
  simp [fillCat]

theorem fillNum_twice (p : Bool) (m m2 : Option ℚ) (v : Option ℚ)
    (hnone : m = none → m2 = none) :
    fillNum p m2 (fillNum p m v) = fillNum p m v := by
  cases p
  · rw [fillNum_false, fillNum_false]
  · cases m with
    | none => rw [fillNum_none, hnone rfl, fillNum_none]
    | some mv => exact fillNum_absorb m2 mv v

theorem cleanData_hasRecipeName (t : Table) :
    (cleanData t).hasRecipeName = t.hasRecipeName := rfl

theorem cleanData_hasDietType (t : Table) :
    (cleanData t).hasDietType = t.hasDietType := rfl

theorem cleanData_hasCuisineType (t : Table) :
    (cleanData t).hasCuisineType = t.hasCuisineType := rfl

theorem cleanData_hasProtein (t : Table) :
    (cleanData t).hasProtein = t.hasProtein := rfl

theorem cleanData_hasCarbs (t : Table) :
    (cleanData t).hasCarbs = t.hasCarbs := rfl

theorem cleanData_hasFat (t : Table) :
    (cleanData t).hasFat = t.hasFat := rfl

theorem cleanData_rows (t : Table) :
    (cleanData t).rows = t.rows.map (cleanRow t) := rfl

theorem cleanRow_recipeName (t : Table) (r : Row) :
    (cleanRow t r).recipeName = r.recipeName := rfl

theorem cleanRow_dietType (t : Table) (r : Row) :
    (cleanRow t r).dietType =
      fillCat t.hasDietType (modeFill (t.rows.map fun s => s.dietType))
        r.dietType := rfl

theorem cleanRow_cuisineType (t : Table) (r : Row) :
    (cleanRow t r).cuisineType =
      fillCat t.hasCuisineType
        (modeFill (t.rows.map fun s => s.cuisineType)) r.cuisineType := rfl

theorem cleanRow_protein (t : Table) (r : Row) :
    (cleanRow t r).protein =
      fillNum t.hasProtein (meanOpt (t.rows.map fun s => s.protein))
        r.protein := rfl

theorem cleanRow_carbs (t : Table) (r : Row) :
    (cleanRow t r).carbs =
      fillNum t.hasCarbs (meanOpt (t.rows.map fun s => s.carbs))
        r.carbs := rfl

theorem cleanRow_fat (t : Table) (r : Row) :
    (cleanRow t r).fat =
      fillNum t.hasFat (meanOpt (t.rows.map fun s => s.fat)) r.fat := rfl

/-- Cleaning a cleaned row again changes nothing: the categorical cells
are all filled, and the numeric cells are either filled or belong to a
column whose mean is still missing. -/
theorem cleanRow_cleanRow (t : Table) (r : Row) :
    cleanRow (cleanData t) (cleanRow t r) = cleanRow t r := by
  refine Row.mk.injEq _ _ _ _ _ _ _ _ _ _ _ _ ▸ ?_
  refine ⟨rfl, ?_, ?_, ?_, ?_, ?_⟩
  · rw [cleanData_hasDietType]
    exact fillCat_absorb _ _ _ _
  · rw [cleanData_hasCuisineType]
    exact fillCat_absorb _ _ _ _
  · rw [cleanData_hasProtein]
    refine fillNum_twice _ _ _ _ fun hm => ?_
    have hcol : (cleanData t).rows.map (fun s => s.protein) =
        t.rows.map fun s => s.protein := by
      rw [cleanData_rows, List.map_map]
      refine List.map_congr_left fun r2 _ => ?_
      simp only [Function.comp_apply, cleanRow_protein]
      rw [hm, fillNum_none]
    rw [hcol]
    exact hm
  · rw [cleanData_hasCarbs]
    refine fillNum_twice _ _ _ _ fun hm => ?_
    have hcol : (cleanData t).rows.map (fun s => s.carbs) =
        t.rows.map fun s => s.carbs := by
      rw [cleanData_rows, List.map_map]
      refine List.map_congr_left fun r2 _ => ?_
      simp only [Function.comp_apply, cleanRow_carbs]
      rw [hm, fillNum_none]
    rw [hcol]
    exact hm
  · rw [cleanData_hasFat]
    refine fillNum_twice _ _ _ _ fun hm => ?_
    have hcol : (cleanData t).rows.map (fun s => s.fat) =
        t.rows.map fun s => s.fat := by
      rw [cleanData_rows, List.map_map]
      refine List.map_congr_left fun r2 _ => ?_
      simp only [Function.comp_apply, cleanRow_fat]
      rw [hm, fillNum_none]
    rw [hcol]
    exact hm

theorem fillCat_isSome_arg (p : Bool) (f : String) (v : Option String)
    (hv : v.isSome = true) : fillCat p f v = v := by
  cases p
  · exact fillCat_false f v
  · rcases Option.isSome_iff_exists.1 hv with ⟨x, rfl⟩
    exact fillCat_some_arg f x

theorem fillNum_isSome_arg (p : Bool) (m : Option ℚ) (v : Option ℚ)
    (hv : v.isSome = true) : fillNum p m v = v := by
  cases p
  · exact fillNum_false m v
  · rcases Option.isSome_iff_exists.1 hv with ⟨x, rfl⟩
    exact fillNum_some_arg m x

/-- Claim C5: cleaning is idempotent — `clean (clean D) = clean D` for
every dataset `D` — and cleaning an already-clean table (no missing
values in any present cleaned column) leaves it unchanged. -/
theorem C5_cleaning_idempotent :
    (∀ t : Table, cleanData (cleanData t) = cleanData t) ∧
    (∀ t : Table,
      (∀ r ∈ t.rows,
        (t.hasDietType = true → r.dietType.isSome = true) ∧
        (t.hasCuisineType = true → r.cuisineType.isSome = true) ∧
        (t.hasProtein = true → r.protein.isSome = true) ∧
        (t.hasCarbs = true → r.carbs.isSome = true) ∧
        (t.hasFat = true → r.fat.isSome = true)) →
      cleanData t = t) := by
  constructor
  · intro t
    have hrows : (cleanData t).rows.map (cleanRow (cleanData t)) =
        (cleanData t).rows := by
      rw [cleanData_rows t, List.map_map]
      refine List.map_congr_left fun r _ => ?_
      simp only [Function.comp_apply]
      exact cleanRow_cleanRow t r
    show ({ cleanData t with
      rows := (cleanData t).rows.map (cleanRow (cleanData t)) } : Table) =
        cleanData t
    rw [hrows]
  · intro t h
    have hrows : t.rows.map (cleanRow t) = t.rows := by
      have hpt : ∀ r ∈ t.rows, cleanRow t r = r := by
        intro r hr
        obtain ⟨h1, h2, h3, h4, h5⟩ := h r hr
        obtain ⟨rn, dt, ct, pv, cv, fv⟩ := r
        refine Row.mk.injEq _ _ _ _ _ _ _ _ _ _ _ _ ▸ ?_
        refine ⟨rfl, ?_, ?_, ?_, ?_, ?_⟩
        · cases hD : t.hasDietType
          · exact fillCat_false _ _
          · exact fillCat_isSome_arg _ _ _ (h1 hD)
        · cases hD : t.hasCuisineType
          · exact fillCat_false _ _
          · exact fillCat_isSome_arg _ _ _ (h2 hD)
        · cases hD : t.hasProtein
          · exact fillNum_false _ _
          · exact fillNum_isSome_arg _ _ _ (h3 hD)
        · cases hD : t.hasCarbs
          · exact fillNum_false _ _
          · exact fillNum_isSome_arg _ _ _ (h4 hD)
        · cases hD : t.hasFat
          · exact fillNum_false _ _
          · exact fillNum_isSome_arg _ _ _ (h5 hD)
      calc t.rows.map (cleanRow t)
          = t.rows.map id := List.map_congr_left fun a ha => by
            simpa using hpt a ha
        _ = t.rows := List.map_id _
    show ({ t with rows := t.rows.map (cleanRow t) } : Table) = t
    rw [hrows]

theorem C5_cleaning_idempotent_witness :
    (∀ r ∈ exC5.rows,
      (exC5.hasDietType = true → r.dietType.isSome = true) ∧
      (exC5.hasCuisineType = true → r.cuisineType.isSome = true) ∧
      (exC5.hasProtein = true → r.protein.isSome = true) ∧
      (exC5.hasCarbs = true → r.carbs.isSome = true) ∧
      (exC5.hasFat = true → r.fat.isSome = true)) ∧
    cleanData exC5 = exC5 :=
  ⟨by decide, C5_cleaning_idempotent.2 exC5 (by decide)⟩

/-- Claim C1 (amended): after cleaning, a present categorical column has
no missing entry — missing entries are filled with the most frequent
non-missing value, ties broken by the least tied value in code-point
order (not the first-encountered one), or `"Unknown"` when the column has
no non-missing value; a missing numeric entry is filled with the
arithmetic mean of the column's non-missing values computed before any
filling, except that a numeric column with no non-missing value at all is
left entirely missing; non-missing entries and absent columns are
untouched. -/
theorem C1_cleaning_spec (t : Table) (i : Nat) (r rc : Row)
    (hr : t.rows[i]? = some r)
    (hrc : (cleanData t).rows[i]? = some rc) :
    rc.recipeName = r.recipeName ∧
    (t.hasDietType = false → rc.dietType = r.dietType) ∧
    (t.hasCuisineType = false → rc.cuisineType = r.cuisineType) ∧
    (t.hasProtein = false → rc.protein = r.protein) ∧
    (t.hasCarbs = false → rc.carbs = r.carbs) ∧
    (t.hasFat = false → rc.fat = r.fat) ∧
    (t.hasDietType = true →
      (∀ v, r.dietType = some v → rc.dietType = some v) ∧
      (r.dietType = none →
        rc.dietType = some (modeFill (t.rows.map fun s => s.dietType)) ∧
        IsLeastMode (t.rows.map fun s => s.dietType)
          (modeFill (t.rows.map fun s => s.dietType)))) ∧
    (t.hasCuisineType = true →
      (∀ v, r.cuisineType = some v → rc.cuisineType = some v) ∧
      (r.cuisineType = none →
        rc.cuisineType =
          some (modeFill (t.rows.map fun s => s.cuisineType)) ∧
        IsLeastMode (t.rows.map fun s => s.cuisineType)
          (modeFill (t.rows.map fun s => s.cuisineType)))) ∧
    (t.hasProtein = true →
      (∀ v, r.protein = some v → rc.protein = some v) ∧
      (r.protein = none →
        (nonNull (t.rows.map fun s => s.protein) = [] →
          rc.protein = none) ∧
        (nonNull (t.rows.map fun s => s.protein) ≠ [] →
          rc.protein =
            some ((nonNull (t.rows.map fun s => s.protein)).sum /
              (((nonNull (t.rows.map fun s => s.protein)).length : ℕ) :
                ℚ))))) ∧
    (t.hasCarbs = true →
      (∀ v, r.carbs = some v → rc.carbs = some v) ∧
      (r.carbs = none →
        (nonNull (t.rows.map fun s => s.carbs) = [] → rc.carbs = none) ∧
        (nonNull (t.rows.map fun s => s.carbs) ≠ [] →
          rc.carbs =
            some ((nonNull (t.rows.map fun s => s.carbs)).sum /
              (((nonNull (t.rows.map fun s => s.carbs)).length : ℕ) :
                ℚ))))) ∧
    (t.hasFat = true →
      (∀ v, r.fat = some v → rc.fat = some v) ∧
      (r.fat = none →
        (nonNull (t.rows.map fun s => s.fat) = [] → rc.fat = none) ∧
        (nonNull (t.rows.map fun s => s.fat) ≠ [] →
          rc.fat =
            some ((nonNull (t.rows.map fun s => s.fat)).sum /
              (((nonNull (t.rows.map fun s => s.fat)).length : ℕ) :
                ℚ))))) := by
  rw [cleanData_rows, List.getElem?_map, hr] at hrc
  have hrc2 : cleanRow t r = rc := by
    simpa using hrc
  subst hrc2
  refine ⟨cleanRow_recipeName t r, ?_, ?_, ?_, ?_, ?_, ?_, ?_, ?_, ?_, ?_⟩
  · intro h
    rw [cleanRow_dietType, h, fillCat_false]
  · intro h
    rw [cleanRow_cuisineType, h, fillCat_false]
  · intro h
    rw [cleanRow_protein, h, fillNum_false]
  · intro h
    rw [cleanRow_carbs, h, fillNum_false]
  · intro h
    rw [cleanRow_fat, h, fillNum_false]
  · intro h
    refine ⟨fun v hv => ?_, fun hnone => ?_⟩
    · rw [cleanRow_dietType, h, hv, fillCat_some_arg]
    · refine ⟨?_, modeFill_isLeastMode _⟩
      rw [cleanRow_dietType, h, hnone, fillCat_true_none]
  · intro h
    refine ⟨fun v hv => ?_, fun hnone => ?_⟩
    · rw [cleanRow_cuisineType, h, hv, fillCat_some_arg]
    · refine ⟨?_, modeFill_isLeastMode _⟩
      rw [cleanRow_cuisineType, h, hnone, fillCat_true_none]
  · intro h
    refine ⟨fun v hv => ?_, fun hnone => ⟨fun hcol => ?_, fun hcol => ?_⟩⟩
    · rw [cleanRow_protein, h, hv, fillNum_some_arg]
    · rw [cleanRow_protein, h, hnone, fillNum_true_none,
        meanOpt_eq_none _ hcol]
    · rw [cleanRow_protein, h, hnone, fillNum_true_none,
        meanOpt_eq_some _ hcol]
  · intro h
    refine ⟨fun v hv => ?_, fun hnone => ⟨fun hcol => ?_, fun hcol => ?_⟩⟩
    · rw [cleanRow_carbs, h, hv, fillNum_some_arg]
    · rw [cleanRow_carbs, h, hnone, fillNum_true_none,
        meanOpt_eq_none _ hcol]
    · rw [cleanRow_carbs, h, hnone, fillNum_true_none,
        meanOpt_eq_some _ hcol]
  · intro h
    refine ⟨fun v hv => ?_, fun hnone => ⟨fun hcol => ?_, fun hcol => ?_⟩⟩
    · rw [cleanRow_fat, h, hv, fillNum_some_arg]
    · rw [cleanRow_fat, h, hnone, fillNum_true_none,
        meanOpt_eq_none _ hcol]
    · rw [cleanRow_fat, h, hnone, fillNum_true_none,
        meanOpt_eq_some _ hcol]

/-- Claim C1 as stated is false on `exC1`: the present Protein column is
entirely missing and stays entirely missing after cleaning, and the
mode tie between `"b"` (first encountered) and `"a"` is filled with
`"a"` (pandas sorts the tied modes), not with the first-encountered
`"b"` the claim requires. -/
theorem C1_cleaning_counterexample :
    exC1.hasProtein = true ∧
    ((cleanData exC1).rows.map fun r => r.protein) = [none, none, none] ∧
    exC1.hasDietType = true ∧
    ((cleanData exC1).rows.map fun r => r.dietType) =
      [some "b", some "a", some "a"] ∧
    firstEncounteredMode (exC1.rows.map fun r => r.dietType) = "b" ∧
    ("a" : String) ≠ "b" := by
  decide

theorem C1_cleaning_spec_witness :
    exC1w.rows[0]? = some exC1wRow0 ∧
    (cleanData exC1w).rows[0]? = some exC1wRow0c ∧
    exC1wRow0c.dietType =
      some (modeFill (exC1w.rows.map fun s => s.dietType)) ∧
    IsLeastMode (exC1w.rows.map fun s => s.dietType)
      (modeFill (exC1w.rows.map fun s => s.dietType)) := by
  have h := C1_cleaning_spec exC1w 0 exC1wRow0 exC1wRow0c rfl rfl
  have hdt := h.2.2.2.2.2.2.1 rfl
  exact ⟨rfl, rfl, (hdt.2 rfl).1, (hdt.2 rfl).2⟩

/-! ### No-dataset behaviour and the frame property -/

/-- Claim C7: every query operation of the engine, invoked when no dataset
is loaded, returns its documented empty/default result (`{}` or `[]`) and
never raises. -/
theorem C7_no_dataset_defaults :
    get_diet_summary none = none ∧
    get_macronutrient_averages none = [] ∧
    get_diet_comparison_data none = [] ∧
    (∀ nutrient n, get_top_recipes_by_nutrient none nutrient n = []) ∧
    get_cuisine_distribution none = [] ∧
    get_nutrient_ranges none = [] ∧
    (∀ diet, get_recipes_by_diet_type none diet = []) ∧
    (∀ term field, search_recipes none term field = some []) :=
  ⟨rfl, rfl, rfl, fun _ _ => rfl, rfl, rfl, fun _ => rfl, fun _ _ => rfl⟩

/-- Claim C9: every query operation leaves the dataset unchanged — each
method only reads `self.data`, so the state it passes on is its input
state, for any state and any arguments; consequently no sequence of query
calls alters any row, column or value. -/
theorem C9_queries_read_only :
    (∀ st, (run_summary st).1 = st) ∧
    (∀ st, (run_macronutrient_averages st).1 = st) ∧
    (∀ st, (run_diet_comparison st).1 = st) ∧
    (∀ st nutrient n, (run_top_recipes st nutrient n).1 = st) ∧
    (∀ st, (run_cuisine_distribution st).1 = st) ∧
    (∀ st, (run_nutrient_ranges st).1 = st) ∧
    (∀ st diet, (run_recipes_by_diet_type st diet).1 = st) ∧
    (∀ st term field, (run_search st term field).1 = st) :=
  ⟨fun _ => rfl, fun _ => rfl, fun _ => rfl, fun _ _ _ => rfl, fun _ => rfl,
    fun _ => rfl, fun _ _ => rfl, fun _ _ _ => rfl⟩

/-- Claim C4: when the load fails (source missing, unreadable or
unparsable, i.e. the external fetch/parse yields nothing), the operation
returns `False`, no dataset is installed (the state of a freshly
constructed processor stays `None`), and every subsequent query behaves
exactly as in the no-dataset state. -/
theorem C4_load_failure (parsed : Option Table) (h : parsed = none) :
    load_data_from_content initData parsed = (initData, false) ∧
    (load_data_from_content initData parsed).1 = none ∧
    get_diet_summary (load_data_from_content initData parsed).1 = none ∧
    get_macronutrient_averages
      (load_data_from_content initData parsed).1 = [] ∧
    get_diet_comparison_data
      (load_data_from_content initData parsed).1 = [] ∧
    (∀ nutrient n, get_top_recipes_by_nutrient
      (load_data_from_content initData parsed).1 nutrient n = []) ∧
    get_cuisine_distribution
      (load_data_from_content initData parsed).1 = [] ∧
    get_nutrient_ranges (load_data_from_content initData parsed).1 = [] ∧
    (∀ diet, get_recipes_by_diet_type
      (load_data_from_content initData parsed).1 diet = []) ∧
    (∀ term field, search_recipes
      (load_data_from_content initData parsed).1 term field = some []) := by
  subst h
  exact ⟨rfl, rfl, rfl, rfl, rfl, fun _ _ => rfl, rfl, rfl, fun _ => rfl,
    fun _ _ => rfl⟩

theorem C4_load_failure_witness :
    (none : Option Table) = none ∧
    load_data_from_content initData none = (initData, false) :=
  ⟨rfl, (C4_load_failure none rfl).1⟩

/-! ### Diet comparison (C6) -/

theorem matchesKey_decide (s : String) (v : Option String) :
    matchesKey (some s) v = decide (v = some s) := by
  cases v with
  | none => rfl
  | some b =>
    show (s == b) = decide (some b = some s)
    by_cases hsb : s = b
    · subst hsb
      simp
    · rw [beq_eq_false_iff_ne.2 hsb]
      have hbs : ¬b = s := fun h => hsb (Eq.symm h)
      simp [hbs]

/-- Claim C6 (amended): provided the `Diet_type` column and at least one
macronutrient column are present, `get_diet_comparison_data` returns one
entry per distinct diet type (in first-seen order, without duplicates),
each carrying the group's rounded macronutrient means (a macronutrient
column absent from the schema contributes the default `0`) and the
group's row count, and the row counts sum to the dataset's row count. -/
theorem C6_diet_comparison (t : Table) (hd : t.hasDietType = true)
    (hm : t.hasProtein = true ∨ t.hasCarbs = true ∨ t.hasFat = true)
    (hsome : ∀ r ∈ t.rows, r.dietType.isSome = true) :
    ((get_diet_comparison_data (some t)).map fun e => e.diet_type) =
      dietKeys t ∧
    ((get_diet_comparison_data (some t)).map fun e => e.diet_type).Nodup ∧
    (∀ e ∈ get_diet_comparison_data (some t),
      e.total_recipes = (groupRows t e.diet_type).length ∧
      (t.hasProtein = true → e.protein =
        (meanOpt ((groupRows t e.diet_type).map fun r => r.protein)).map
          round2) ∧
      (t.hasProtein = false → e.protein = some 0) ∧
      (t.hasCarbs = true → e.carbs =
        (meanOpt ((groupRows t e.diet_type).map fun r => r.carbs)).map
          round2) ∧
      (t.hasCarbs = false → e.carbs = some 0) ∧
      (t.hasFat = true → e.fat =
        (meanOpt ((groupRows t e.diet_type).map fun r => r.fat)).map
          round2) ∧
      (t.hasFat = false → e.fat = some 0)) ∧
    ((get_diet_comparison_data (some t)).map fun e => e.total_recipes).sum =
      t.rows.length := by
  have hguard : (!t.hasDietType ||
      (!t.hasProtein && !t.hasCarbs && !t.hasFat)) = false := by
    rw [hd]
    rcases hm with h | h | h <;> simp [h]
  have hcomp : get_diet_comparison_data (some t) =
      (dietKeys t).map fun k =>
        { diet_type := k
          protein :=
            if t.hasProtein = true then
              (meanOpt ((groupRows t k).map fun r => r.protein)).map round2
            else some 0
          carbs :=
            if t.hasCarbs = true then
              (meanOpt ((groupRows t k).map fun r => r.carbs)).map round2
            else some 0
          fat :=
            if t.hasFat = true then
              (meanOpt ((groupRows t k).map fun r => r.fat)).map round2
            else some 0
          total_recipes := (groupRows t k).length } := by
    simp only [get_diet_comparison_data, get_macronutrient_averages, hguard,
      Bool.false_eq_true, if_false, List.map_map]
    refine List.map_congr_left fun k hk => ?_
    by_cases hp : t.hasProtein <;> by_cases hc : t.hasCarbs <;>
      by_cases hf : t.hasFat <;> simp [hp, hc, hf]
  have hkeys : ((get_diet_comparison_data (some t)).map
      fun e => e.diet_type) = dietKeys t := by
    rw [hcomp, List.map_map]
    exact (List.map_congr_left fun k _ => rfl).trans (List.map_id _)
  have hgrp : ∀ k ∈ dietKeys t,
      (groupRows t k).length =
        @List.count (Option String) instBEqOfDecidableEq k
          (t.rows.map fun r => r.dietType) := by
    intro k hk
    obtain ⟨s, rfl⟩ : ∃ s, k = some s := by
      have hkcol := (mem_uniqueList _ _).1 hk
      rcases List.mem_map.1 hkcol with ⟨r, hr, hrk⟩
      rcases Option.isSome_iff_exists.1 (hsome r hr) with ⟨s, hs⟩
      exact ⟨s, by rw [← hrk, hs]⟩
    calc (groupRows t (some s)).length
        = List.countP (fun r => matchesKey (some s) r.dietType) t.rows :=
          (List.countP_eq_length_filter _ _).symm
      _ = List.countP (fun r => decide (r.dietType = some s)) t.rows :=
          List.countP_congr fun r _ => by rw [matchesKey_decide]
      _ = List.countP (fun v => decide (v = some s))
            (t.rows.map fun r => r.dietType) := by
          rw [List.countP_map]
          rfl
      _ = @List.count (Option String) instBEqOfDecidableEq (some s)
            (t.rows.map fun r => r.dietType) := rfl
  refine ⟨hkeys, by rw [hkeys]; exact nodup_uniqueList _, ?_, ?_⟩
  · rw [hcomp]
    intro e he
    rcases List.mem_map.1 he with ⟨k, hk, rfl⟩
    refine ⟨rfl, ?_, ?_, ?_, ?_, ?_, ?_⟩ <;> intro h <;> simp [h]
  · rw [hcomp, List.map_map]
    have hfun : ((dietKeys t).map fun k => (groupRows t k).length) =
        (dietKeys t).map fun k =>
          @List.count (Option String) instBEqOfDecidableEq k
            (t.rows.map fun r => r.dietType) :=
      List.map_congr_left hgrp
    show ((dietKeys t).map fun k => (groupRows t k).length).sum = _
    rw [hfun]
    unfold dietKeys
    exact (sum_count_uniqueList _).trans (List.length_map _ _)

/-- Claim C6 as stated is false on `exC6`: a cleaned table with one row,
a `Diet_type` column but no macronutrient columns has one distinct diet
type, yet the comparison result is empty, so the `total_recipes` fields
sum to `0 ≠ 1`. -/
theorem C6_diet_comparison_counterexample :
    cleanData exC6 = exC6 ∧
    get_diet_comparison_data (some exC6) = [] ∧
    dietKeys exC6 = [some "a"] ∧
    exC6.rows.length = 1 := by
  decide

theorem C6_diet_comparison_witness :
    exC6w.hasDietType = true ∧
    (exC6w.hasProtein = true ∨ exC6w.hasCarbs = true ∨
      exC6w.hasFat = true) ∧
    (∀ r ∈ exC6w.rows, r.dietType.isSome = true) ∧
    ((get_diet_comparison_data (some exC6w)).map
      fun e => e.total_recipes).sum = exC6w.rows.length :=
  ⟨rfl, Or.inl rfl, by decide,
    (C6_diet_comparison exC6w rfl (Or.inl rfl) (by decide)).2.2.2⟩

/-! ### Rounding and nutrient ranges (C8) -/

theorem rhe_floor_le (q : ℚ) : ⌊q⌋ ≤ rhe q := by
  unfold rhe
  split_ifs <;> omega

theorem rhe_le_floor_add_one (q : ℚ) : rhe q ≤ ⌊q⌋ + 1 := by
  unfold rhe
  split_ifs <;> omega

theorem rhe_mono {a b : ℚ} (h : a ≤ b) : rhe a ≤ rhe b := by
  rcases lt_or_eq_of_le (Int.floor_mono h) with hf | hf
  · calc rhe a ≤ ⌊a⌋ + 1 := rhe_le_floor_add_one a
      _ ≤ ⌊b⌋ := by omega
      _ ≤ rhe b := rhe_floor_le b
  · unfold rhe
    rw [← hf]
    have hfa : (⌊a⌋ : ℚ) ≤ a := Int.floor_le a
    split_ifs <;> first | omega | linarith

theorem round2_mono {a b : ℚ} (h : a ≤ b) : round2 a ≤ round2 b := by
  unfold round2
  have h1 := rhe_mono (mul_le_mul_of_nonneg_right h (by norm_num : (0:ℚ) ≤ 100))
  have h2 : ((rhe (a * 100) : ℤ) : ℚ) ≤ ((rhe (b * 100) : ℤ) : ℚ) := by
    exact_mod_cast h1
  exact (div_le_div_iff_of_pos_right (by norm_num)).2 h2

theorem foldl_min_le_mem (x : ℚ) (l : List ℚ) :
    ∀ y ∈ x :: l, l.foldl min x ≤ y := by
  induction l generalizing x with
  | nil =>
    intro y hy
    simp at hy
    simp [hy]
  | cons b bs ih =>
    intro y hy
    simp only [List.foldl_cons]
    have hacc := ih (min x b)
    rcases List.mem_cons.1 hy with rfl | hy2
    · exact le_trans (hacc (min y b) (by simp)) (min_le_left _ _)
    rcases List.mem_cons.1 hy2 with rfl | hy3
    · exact le_trans (hacc (min x y) (by simp)) (min_le_right _ _)
    · exact hacc y (by simp [hy3])

theorem le_foldl_max_mem (x : ℚ) (l : List ℚ) :
    ∀ y ∈ x :: l, y ≤ l.foldl max x := by
  induction l generalizing x with
  | nil =>
    intro y hy
    simp at hy
    simp [hy]
  | cons b bs ih =>
    intro y hy
    simp only [List.foldl_cons]
    have hacc := ih (max x b)
    rcases List.mem_cons.1 hy with rfl | hy2
    · exact le_trans (le_max_left _ _) (hacc (max y b) (by simp))
    rcases List.mem_cons.1 hy2 with rfl | hy3
    · exact le_trans (le_max_right _ _) (hacc (max x y) (by simp))
    · exact hacc y (by simp [hy3])

theorem min_le_mean (vs : List (Option ℚ)) (mn me : ℚ)
    (hmn : minOpt vs = some mn) (hme : meanOpt vs = some me) : mn ≤ me := by
  unfold minOpt at hmn
  unfold meanOpt at hme
  rcases hc : nonNull vs with - | ⟨x, xs⟩ <;> rw [hc] at hmn hme
  · simp at hmn
  · simp only [Option.some.injEq] at hmn hme
    subst hmn
    subst hme
    have hsum : ((x :: xs).length : ℕ) • (xs.foldl min x) ≤ (x :: xs).sum :=
      List.card_nsmul_le_sum _ _ (foldl_min_le_mem x xs)
    rw [nsmul_eq_mul] at hsum
    have hpos : (0 : ℚ) < (((x :: xs).length : ℕ) : ℚ) := by
      simp only [List.length_cons]
      positivity
    rw [le_div_iff₀ hpos]
    calc xs.foldl min x * (((x :: xs).length : ℕ) : ℚ)
        = (((x :: xs).length : ℕ) : ℚ) * xs.foldl min x := mul_comm _ _
      _ ≤ (x :: xs).sum := hsum

theorem mean_le_max (vs : List (Option ℚ)) (me mx : ℚ)
    (hme : meanOpt vs = some me) (hmx : maxOpt vs = some mx) : me ≤ mx := by
  unfold maxOpt at hmx
  unfold meanOpt at hme
  rcases hc : nonNull vs with - | ⟨x, xs⟩ <;> rw [hc] at hmx hme
  · simp at hmx
  · simp only [Option.some.injEq] at hmx hme
    subst hmx
    subst hme
    have hsum : (x :: xs).sum ≤ ((x :: xs).length : ℕ) • (xs.foldl max x) :=
      List.sum_le_card_nsmul _ _ (le_foldl_max_mem x xs)
    rw [nsmul_eq_mul] at hsum
    have hpos : (0 : ℚ) < (((x :: xs).length : ℕ) : ℚ) := by
      simp only [List.length_cons]
      positivity
    rw [div_le_iff₀ hpos]
    calc (x :: xs).sum
        ≤ (((x :: xs).length : ℕ) : ℚ) * xs.foldl max x := hsum
      _ = xs.foldl max x * (((x :: xs).length : ℕ) : ℚ) := mul_comm _ _

theorem mkRange_ordered (col : List (Option ℚ)) (mn me mx : ℚ)
    (hmn : (mkRange col).min = some mn)
    (hme : (mkRange col).average = some me)
    (hmx : (mkRange col).max = some mx) : mn ≤ me ∧ me ≤ mx := by
  unfold mkRange at hmn hme hmx
  simp only at hmn hme hmx
  rcases Option.map_eq_some'.1 hmn with ⟨mn0, hmn0, rfl⟩
  rcases Option.map_eq_some'.1 hme with ⟨me0, hme0, rfl⟩
  rcases Option.map_eq_some'.1 hmx with ⟨mx0, hmx0, rfl⟩
  exact ⟨round2_mono (min_le_mean col mn0 me0 hmn0 hme0),
    round2_mono (mean_le_max col me0 mx0 hme0 hmx0)⟩

theorem medianOpt_isSome (vs : List (Option ℚ)) (h : nonNull vs ≠ []) :
    ∃ md, medianOpt vs = some md := by
  have hlen : (sortedVals vs).length = (nonNull vs).length :=
    (List.perm_insertionSort _ _).length_eq
  have hpos : 0 < (sortedVals vs).length := by
    rw [hlen]
    exact List.length_pos.2 h
  unfold medianOpt
  rw [if_neg (by omega)]
  by_cases hodd : (sortedVals vs).length % 2 = 1
  · rw [if_pos hodd]
    have hidx : (sortedVals vs).length / 2 < (sortedVals vs).length :=
      Nat.div_lt_self hpos (by norm_num)
    exact ⟨_, List.getElem?_eq_getElem hidx⟩
  · rw [if_neg hodd]
    have h2 : (sortedVals vs).length / 2 < (sortedVals vs).length :=
      Nat.div_lt_self hpos (by norm_num)
    have h1 : (sortedVals vs).length / 2 - 1 < (sortedVals vs).length := by
      omega
    rw [List.getElem?_eq_getElem h1, List.getElem?_eq_getElem h2]
    exact ⟨_, rfl⟩

theorem mkRange_defined (col : List (Option ℚ)) (h : nonNull col ≠ []) :
    ∃ mn mx me md, mkRange col =
      { min := some mn, max := some mx, average := some me,
        median := some md } := by
  rcases hc : nonNull col with - | ⟨x, xs⟩
  · exact absurd hc h
  have hmn : minOpt col = some (xs.foldl min x) := by
    unfold minOpt
    rw [hc]
  have hmx : maxOpt col = some (xs.foldl max x) := by
    unfold maxOpt
    rw [hc]
  have hme := meanOpt_eq_some col h
  rcases medianOpt_isSome col h with ⟨md, hmd⟩
  refine ⟨round2 (xs.foldl min x), round2 (xs.foldl max x),
    round2 ((nonNull col).sum / (((nonNull col).length : ℕ) : ℚ)),
    round2 md, ?_⟩
  unfold mkRange
  rw [hmn, hmx, hme, hmd]
  rfl

theorem mem_ranges_iff (t : Table) (e : String × NutrientRange) :
    e ∈ get_nutrient_ranges (some t) ↔
      (t.hasProtein = true ∧
        e = ("Protein", mkRange (t.rows.map fun r => r.protein))) ∨
      (t.hasCarbs = true ∧
        e = ("Carbs", mkRange (t.rows.map fun r => r.carbs))) ∨
      (t.hasFat = true ∧
        e = ("Fat", mkRange (t.rows.map fun r => r.fat))) := by
  unfold get_nutrient_ranges
  by_cases hp : t.hasProtein <;> by_cases hc : t.hasCarbs <;>
    by_cases hf : t.hasFat <;> simp [hp, hc, hf]

/-- Claim C8 (amended): a macronutrient column absent from the schema is
omitted from the result; a present column is reported with
min/max/mean/median each rounded to 2 decimals, and — provided the column
has at least one non-missing value — all four statistics exist and
satisfy `min ≤ mean ≤ max`; for a present column with no non-missing
value the four statistics are all missing (`NaN`), so no ordering holds
between them. -/
theorem C8_nutrient_ranges (t : Table) :
    (t.hasProtein = false →
      ∀ e ∈ get_nutrient_ranges (some t), e.1 ≠ "Protein") ∧
    (t.hasCarbs = false →
      ∀ e ∈ get_nutrient_ranges (some t), e.1 ≠ "Carbs") ∧
    (t.hasFat = false →
      ∀ e ∈ get_nutrient_ranges (some t), e.1 ≠ "Fat") ∧
    (t.hasProtein = true →
      ("Protein", mkRange (t.rows.map fun r => r.protein)) ∈
        get_nutrient_ranges (some t)) ∧
    (t.hasCarbs = true →
      ("Carbs", mkRange (t.rows.map fun r => r.carbs)) ∈
        get_nutrient_ranges (some t)) ∧
    (t.hasFat = true →
      ("Fat", mkRange (t.rows.map fun r => r.fat)) ∈
        get_nutrient_ranges (some t)) ∧
    (∀ name r, (name, r) ∈ get_nutrient_ranges (some t) →
      ∀ mn me mx : ℚ, r.min = some mn → r.average = some me →
        r.max = some mx → mn ≤ me ∧ me ≤ mx) ∧
    (∀ col : List (Option ℚ), nonNull col ≠ [] →
      ∃ mn mx me md, mkRange col =
        { min := some mn, max := some mx, average := some me,
          median := some md }) := by
  refine ⟨?_, ?_, ?_, ?_, ?_, ?_, ?_, mkRange_defined⟩
  · intro h e he
    rcases (mem_ranges_iff t e).1 he with ⟨h1, -⟩ | ⟨-, rfl⟩ | ⟨-, rfl⟩
    · rw [h] at h1
      exact absurd h1 (by simp)
    · simp
    · simp
  · intro h e he
    rcases (mem_ranges_iff t e).1 he with ⟨-, rfl⟩ | ⟨h1, -⟩ | ⟨-, rfl⟩
    · simp
    · rw [h] at h1
      exact absurd h1 (by simp)
    · simp
  · intro h e he
    rcases (mem_ranges_iff t e).1 he with ⟨-, rfl⟩ | ⟨-, rfl⟩ | ⟨h1, -⟩
    · simp
    · simp
    · rw [h] at h1
      exact absurd h1 (by simp)
  · intro h
    exact (mem_ranges_iff t _).2 (Or.inl ⟨h, rfl⟩)
  · intro h
    exact (mem_ranges_iff t _).2 (Or.inr (Or.inl ⟨h, rfl⟩))
  · intro h
    exact (mem_ranges_iff t _).2 (Or.inr (Or.inr ⟨h, rfl⟩))
  · intro name r hmem mn me mx h1 h2 h3
    rcases (mem_ranges_iff t _).1 hmem with ⟨-, heq⟩ | ⟨-, heq⟩ | ⟨-, heq⟩ <;>
    · injection heq with hn hr
      subst hr
      exact mkRange_ordered _ mn me mx h1 h2 h3

/-- Claim C8 as stated is false on `exC8`: the empty cleaned table has a
present Protein column, and its reported entry carries `NaN` for all four
statistics, so no rationals `min ≤ mean ≤ max` are reported. -/
theorem C8_nutrient_ranges_counterexample :
    cleanData exC8 = exC8 ∧
    get_nutrient_ranges (some exC8) =
      [("Protein",
        { min := none, max := none, average := none, median := none })] ∧
    ¬ (∀ e ∈ get_nutrient_ranges (some exC8), ∃ mn me mx : ℚ,
        e.2.min = some mn ∧ e.2.average = some me ∧ e.2.max = some mx ∧
        mn ≤ me ∧ me ≤ mx) := by
  refine ⟨by decide, by decide, ?_⟩
  intro hcon
  have h := hcon ("Protein",
    { min := none, max := none, average := none, median := none })
    (by decide)
  rcases h with ⟨mn, me, mx, h1, -⟩
  exact Option.noConfusion h1

theorem C8_nutrient_ranges_witness :
    exC8w.hasProtein = true ∧
    ("Protein", mkRange (exC8w.rows.map fun r => r.protein)) ∈
      get_nutrient_ranges (some exC8w) ∧
    nonNull (exC8w.rows.map fun r => r.protein) ≠ [] ∧
    (∃ mn mx me md, mkRange (exC8w.rows.map fun r => r.protein) =
      { min := some mn, max := some mx, average := some me,
        median := some md }) := by
  refine ⟨rfl, ?_, by decide, ?_⟩
  · exact (C8_nutrient_ranges exC8w).2.2.2.1 rfl
  · exact (C8_nutrient_ranges exC8w).2.2.2.2.2.2.2 _ (by decide)

/-! ### Top-N by nutrient (C2) -/

theorem length_filter_enumFrom {α : Type} (P : α → Bool) (l : List α) :
    ∀ n, ((List.enumFrom n l).filter fun p => P p.2).length =
      (l.filter P).length := by
  induction l with
  | nil => intro n; rfl
  | cons x xs ih =>
    intro n
    show (((n, x) :: List.enumFrom (n + 1) xs).filter
      fun p => P p.2).length = _
    cases hP : P x <;>
      simp [List.filter_cons, hP, ih (n + 1)]

theorem length_filter_enum {α : Type} (P : α → Bool) (l : List α) :
    ((l.enum.filter fun p => P p.2)).length = (l.filter P).length :=
  length_filter_enumFrom P l 0

/-- Claim C2 (amended): for a cleaned dataset, a nutrient name and an `N`
clamped to `[1,100]`, the top-`N` query returns the rows ordered by
nutrient value descending with ties in input-row order (the sort
relation carries the original row index), drawn without repetition from
the rows whose nutrient value is non-missing — but it returns exactly
`min(N, number of rows with a non-missing nutrient value)` rows, which is
`min(N, rowCount)` only when the (present) nutrient column has no missing
value; a cleaned dataset can retain an entirely-missing nutrient column,
and then the result is empty.  An unknown or absent nutrient column gives
the empty result. -/
theorem C2_top_by_nutrient (t : Table) (nutrient : String) (n : Nat)
    (h1 : 1 ≤ n) (h2 : n ≤ 100) :
    (nutrientKey t nutrient = none →
      get_top_recipes_by_nutrient (some t) nutrient n = []) ∧
    (∀ key, nutrientKey t nutrient = some key →
      get_top_recipes_by_nutrient (some t) nutrient n =
        (nlargestIdx n key t.rows).map
          (fun p => mkTopRecipe t nutrient key p.2) ∧
      (get_top_recipes_by_nutrient (some t) nutrient n).length =
        min n ((t.rows.filter fun r => (key r).isSome).length) ∧
      (nlargestIdx n key t.rows).Sorted (topRel key) ∧
      (nlargestIdx n key t.rows).Subperm
        (t.rows.enum.filter fun p => (key p.2).isSome)) := by
  constructor
  · intro h
    simp [get_top_recipes_by_nutrient, h]
  · intro key hkey
    have heq : get_top_recipes_by_nutrient (some t) nutrient n =
        (nlargestIdx n key t.rows).map
          fun p => mkTopRecipe t nutrient key p.2 := by
      simp [get_top_recipes_by_nutrient, hkey]
    refine ⟨heq, ?_, ?_, ?_⟩
    · rw [heq, List.length_map]
      unfold nlargestIdx
      rw [List.length_take]
      have hlen : ((t.rows.enum.filter fun p =>
          (key p.2).isSome).insertionSort (topRel key)).length =
          (t.rows.filter fun r => (key r).isSome).length := by
        rw [(List.perm_insertionSort _ _).length_eq]
        exact length_filter_enum (fun r => (key r).isSome) t.rows
      rw [hlen]
    · exact List.Pairwise.sublist (List.take_sublist _ _)
        (List.sorted_insertionSort _ _)
    · exact ((List.take_sublist _ _).subperm).trans
        ((List.perm_insertionSort _ _).subperm)

/-- Claim C2 as stated is false on `exC2`: a cleaned one-row dataset with
a present but entirely missing Protein column; the top-1 query returns
no rows although `min(1, rowCount) = 1` (`nlargest` drops rows whose
value is missing). -/
theorem C2_top_by_nutrient_counterexample :
    cleanData exC2 = exC2 ∧
    get_top_recipes_by_nutrient (some exC2) "Protein" 1 = [] ∧
    min 1 exC2.rows.length = 1 := by
  decide

theorem C2_top_by_nutrient_witness :
    1 ≤ 1 ∧ (1 : Nat) ≤ 100 ∧
    get_top_recipes_by_nutrient (some exC6w) "Protein" 1 =
      (nlargestIdx 1 (fun r => r.protein) exC6w.rows).map
        (fun p => mkTopRecipe exC6w "Protein" (fun r => r.protein) p.2) ∧
    (get_top_recipes_by_nutrient (some exC6w) "Protein" 1).length =
      min 1 ((exC6w.rows.filter fun r => (r.protein).isSome).length) := by
  have h := (C2_top_by_nutrient exC6w "Protein" 1 (by decide) (by decide)).2
    (fun r => r.protein) rfl
  exact ⟨by decide, by decide, h.1, h.2.1⟩

/-! ### Regular expressions and search (C3, C10) -/

theorem accepts_seq (a b : RE) (s : List Char) :
    accepts (RE.seq a b) s = true ↔
      ∃ u v, s = u ++ v ∧ accepts a u = true ∧ accepts b v = true := by
  show ((splitsOf s).any fun p => accepts a p.1 && accepts b p.2) = true ↔ _
  rw [List.any_eq_true]
  constructor
  · rintro ⟨p, hp, hab⟩
    unfold splitsOf at hp
    rcases List.mem_map.1 hp with ⟨i, -, rfl⟩
    rw [Bool.and_eq_true] at hab
    exact ⟨_, _, (List.take_append_drop i s).symm, hab.1, hab.2⟩
  · rintro ⟨u, v, rfl, ha, hb⟩
    refine ⟨(u, v), ?_, by simp [ha, hb]⟩
    unfold splitsOf
    refine List.mem_map.2 ⟨u.length, ?_, ?_⟩
    · refine List.mem_range.2 ?_
      have hle : u.length ≤ (u ++ v).length := by simp
      omega
    · rw [List.take_left, List.drop_left]

theorem accepts_lit (p : List Char) : ∀ s : List Char,
    (accepts (litRE p) s = true ↔ s = p) := by
  induction p with
  | nil =>
    intro s
    show (s.isEmpty = true) ↔ s = []
    simp [List.isEmpty_iff]
  | cons c cs ih =>
    intro s
    show accepts (RE.seq (RE.chr c) (litRE cs)) s = true ↔ _
    rw [accepts_seq]
    constructor
    · rintro ⟨u, v, rfl, hu, hv⟩
      have hu2 : u = [c] := by simpa [accepts] using hu
      rw [hu2, (ih v).1 hv]
      rfl
    · rintro rfl
      exact ⟨[c], cs, rfl, by simp [accepts], (ih cs).2 rfl⟩

theorem searchB_iff (r : RE) (s : List Char) :
    searchB r s = true ↔ ∃ u, u <:+: s ∧ accepts r u = true := by
  unfold searchB
  rw [List.any_eq_true]
  constructor
  · rintro ⟨tl, htl, hin⟩
    rw [List.any_eq_true] at hin
    rcases hin with ⟨u, hu, hacc⟩
    exact ⟨u, List.infix_iff_prefix_suffix.2
      ⟨tl, (List.mem_inits _ _).1 hu, (List.mem_tails _ _).1 htl⟩, hacc⟩
  · rintro ⟨u, hinf, hacc⟩
    rcases List.infix_iff_prefix_suffix.1 hinf with ⟨tl, hpre, hsuf⟩
    exact ⟨tl, (List.mem_tails _ _).2 hsuf,
      List.any_eq_true.2 ⟨u, (List.mem_inits _ _).2 hpre, hacc⟩⟩

theorem infixB_iff (p s : List Char) : infixB p s = true ↔ p <:+: s := by
  unfold infixB
  rw [List.any_eq_true]
  constructor
  · rintro ⟨tl, htl, hpre⟩
    exact List.infix_iff_prefix_suffix.2
      ⟨tl, List.isPrefixOf_iff_prefix.1 hpre, (List.mem_tails _ _).1 htl⟩
  · intro h
    rcases List.infix_iff_prefix_suffix.1 h with ⟨tl, hpre, hsuf⟩
    exact ⟨tl, (List.mem_tails _ _).2 hsuf, List.isPrefixOf_iff_prefix.2 hpre⟩

/-- On a literal pattern, regex search is literal substring containment. -/
theorem searchB_lit (p s : List Char) : searchB (litRE p) s = infixB p s := by
  rw [Bool.eq_iff_iff, searchB_iff, infixB_iff]
  constructor
  · rintro ⟨u, hinf, hacc⟩
    rw [(accepts_lit p u).1 hacc] at hinf
    exact hinf
  · intro h
    exact ⟨p, h, (accepts_lit p p).2 rfl⟩

theorem splitOnBar_no_bar (cs : List Char) (h : ∀ c ∈ cs, ¬ c = '|') :
    splitOnBar cs = [cs] := by
  induction cs with
  | nil => rfl
  | cons c cs ih =>
    have hc : (c == '|') = false :=
      beq_eq_false_iff_ne.2 (h c (List.mem_cons_self _ _))
    have ih2 := ih fun x hx => h x (List.mem_cons_of_mem _ hx)
    show (if (c == '|') = true then [] :: splitOnBar cs
      else match splitOnBar cs with
        | [] => [[c]]
        | hd :: tl => (c :: hd) :: tl) = [c :: cs]
    rw [hc, ih2]
    simp

theorem seqREOfChars_ordinary (cs : List Char)
    (h : ∀ c ∈ cs, isOrdinary c = true) :
    seqREOfChars cs = some (litRE cs) := by
  induction cs with
  | nil => rfl
  | cons c cs ih =>
    have hc : isOrdinary c = true := h c (List.mem_cons_self _ _)
    have hdot : (c == '.') = false := by
      refine beq_eq_false_iff_ne.2 fun hceq => ?_
      rw [hceq] at hc
      exact absurd hc (by decide)
    have hatom : atomRE c = some (RE.chr c) := by
      unfold atomRE
      rw [hdot]
      simp [hc]
    have ih2 := ih fun x hx => h x (List.mem_cons_of_mem _ hx)
    show (match atomRE c, seqREOfChars cs with
      | some a, some r => some (RE.seq a r)
      | _, _ => none) = _
    rw [hatom, ih2]
    rfl

theorem parseRE_ordinary (cs : List Char)
    (h : ∀ c ∈ cs, isOrdinary c = true) :
    parseRE cs = some (litRE cs) := by
  have hbar : ∀ c ∈ cs, ¬ c = '|' := by
    intro c hc hceq
    have hoc := h c hc
    rw [hceq] at hoc
    exact absurd hoc (by decide)
  unfold parseRE
  rw [splitOnBar_no_bar cs hbar]
  have hmap : parseSegs [cs] = some [litRE cs] := by
    show (match seqREOfChars cs, parseSegs [] with
      | some r, some rs => some (r :: rs)
      | _, _ => none) = _
    rw [seqREOfChars_ordinary cs h]
    rfl
  rw [hmap]
  rfl

theorem search_recipes_eq (t : Table) (term field : String)
    (col : Row → Option String) (hcol : stringColOf t field = some col)
    (re : RE) (hre : parseRE (lowerL term.toList) = some re) :
    search_recipes (some t) term field =
      some ((t.rows.filter fun r => optSearch re (col r)).map
        fun r => mkSearchRecipe t r) := by
  have hpres : columnPresent t field = true := by
    unfold columnPresent
    rw [hcol]
    simp
  simp only [search_recipes]
  rw [hpres, hcol, hre]
  simp

/-- Claim C3 (amended): search interprets the term as a case-insensitive
regular expression — it returns exactly the rows whose field value the
regex matches somewhere; for terms whose (lowercased) characters are all
ordinary (no regex metacharacters) this coincides with case-insensitive
literal substring containment; rows with missing field values never
match; a field absent from the schema gives the empty list; when no rows
match, the result is the empty list and not an error. -/
theorem C3_search (t : Table) (term field : String) :
    (columnPresent t field = false →
      search_recipes (some t) term field = some []) ∧
    (∀ col, stringColOf t field = some col →
      ∀ re, parseRE (lowerL term.toList) = some re →
        search_recipes (some t) term field =
          some ((t.rows.filter fun r => optSearch re (col r)).map
            fun r => mkSearchRecipe t r) ∧
        (∀ r : Row, col r = none → optSearch re (col r) = false)) ∧
    (∀ col, stringColOf t field = some col →
      (∀ c ∈ lowerL term.toList, isOrdinary c = true) →
        search_recipes (some t) term field =
          some ((t.rows.filter fun r => optContainsCI term (col r)).map
            fun r => mkSearchRecipe t r)) := by
  refine ⟨?_, ?_, ?_⟩
  · intro h
    simp only [search_recipes]
    rw [h]
    rfl
  · intro col hcol re hre
    refine ⟨search_recipes_eq t term field col hcol re hre, ?_⟩
    intro r hr
    rw [hr]
    rfl
  · intro col hcol hord
    rw [search_recipes_eq t term field col hcol _
      (parseRE_ordinary (lowerL term.toList) hord)]
    congr 2
    refine List.filter_congr fun r _ => ?_
    cases hv : col r with
    | none => rfl
    | some s =>
      show searchB (litRE (lowerL term.toList)) (lowerL s.toList) =
        infixB (lowerL term.toList) (lowerL s.toList)
      exact searchB_lit _ _

/-- Claim C3 as stated is false on `exC3`: the term `"."` matches the
recipe named `"abc"` under the code's regex reading, although `"."` is
not a literal case-insensitive substring of `"abc"`. -/
theorem C3_search_counterexample :
    search_recipes (some exC3) "." "Recipe_name" =
      some [mkSearchRecipe exC3 exC3Row] ∧
    (exC3.rows.filter fun r => optContainsCI "." r.recipeName) = [] ∧
    optContainsCI "." (some "abc") = false := by
  refine ⟨by decide, by decide, by decide⟩

theorem C3_search_witness :
    stringColOf exC3w "Recipe_name" = some (fun r => r.recipeName) ∧
    (∀ c ∈ lowerL "so".toList, isOrdinary c = true) ∧
    search_recipes (some exC3w) "so" "Recipe_name" =
      some ((exC3w.rows.filter fun r =>
        optContainsCI "so" r.recipeName).map
          fun r => mkSearchRecipe exC3w r) :=
  ⟨rfl, by decide,
    (C3_search exC3w "so" "Recipe_name").2.2 (fun r => r.recipeName) rfl
      (by decide)⟩

/-- Claim C10: search interprets the term as a regular expression, not a
literal string — whenever the term compiles in the modelled regex
fragment, the result is the regex-search filter of the rows; and on
`exC10` the term `"b.d"` (with the metacharacter `.`) matches the recipe
`"Abcd"` although literal case-insensitive substring containment matches
no row. -/
theorem C10_search_regex :
    (∀ (t : Table) (term field : String) (col : Row → Option String)
      (re : RE), stringColOf t field = some col →
      parseRE (lowerL term.toList) = some re →
      search_recipes (some t) term field =
        some ((t.rows.filter fun r => optSearch re (col r)).map
          fun r => mkSearchRecipe t r)) ∧
    search_recipes (some exC10) "b.d" "Recipe_name" =
      some [mkSearchRecipe exC10 exC10Row] ∧
    (exC10.rows.filter fun r => optContainsCI "b.d" r.recipeName) = [] := by
  refine ⟨?_, by decide, by decide⟩
  intro t term field col re hcol hre
  exact search_recipes_eq t term field col hcol re hre

theorem C10_search_regex_witness :
    stringColOf exC10 "Recipe_name" = some (fun r => r.recipeName) ∧
    parseRE (lowerL "b.d".toList) =
      some (RE.seq (RE.chr 'b')
        (RE.seq RE.dot (RE.seq (RE.chr 'd') RE.eps))) ∧
    search_recipes (some exC10) "b.d" "Recipe_name" =
      some ((exC10.rows.filter fun r =>
        optSearch (RE.seq (RE.chr 'b')
          (RE.seq RE.dot (RE.seq (RE.chr 'd') RE.eps))) r.recipeName).map
        fun r => mkSearchRecipe exC10 r) :=
  ⟨rfl, by decide,
    C10_search_regex.1 exC10 "b.d" "Recipe_name" (fun r => r.recipeName) _
      rfl (by decide)⟩

end DietProc
